import Mathlib

/-!
# Verification of the GraphRender SVG rendering core

Shallow embedding of the coordinate-normalization and rendering-tree
construction engine of this repository, together with theorems settling the
frozen claims about it.

Embedding conventions:
* Python numbers (ints/floats used for geometry) are modelled as rationals
  (`ℚ`); the geometric claims are about exact arithmetic identities.
* Python dictionaries are modelled as structures; a `.get(k, d)` access of a
  possibly-missing key becomes `Option`'s `getD`; a bare `d[k]` access that can
  raise `KeyError` becomes an `Except String` computation.
* Python string methods (`.strip()`, `.lower()`, `str.isdigit`) are modelled at
  the ASCII level, which is the range the repository's data exercises.
* Values found in `layoutOptions` / `properties` bags can be JSON strings or
  numbers; they are modelled by `PyVal`, and Python's `float(value)` by
  `pyFloat` (a decimal parser; scientific notation and `inf`/`nan` are outside
  the repository's data and are not modelled).
-/

/-- Unicode-scalar whitespace as stripped by Python's `str.strip()`
(ASCII model: space, `\t`, `\n`, `\v`, `\f`, `\r`). -/
def isPyWs (c : Char) : Bool :=
  c.toNat = 32 || c.toNat = 9 || c.toNat = 10 || c.toNat = 11 || c.toNat = 12 || c.toNat = 13

/-- Characters matched by the character class `[a-zA-Z0-9_-]` of
`graphrender/profile.py::css_class_token` and `_icon_def_id`. -/
def allowedChar (c : Char) : Bool :=
  (97 ≤ c.toNat && c.toNat ≤ 122) || (65 ≤ c.toNat && c.toNat ≤ 90) ||
  (48 ≤ c.toNat && c.toNat ≤ 57) || c.toNat = 95 || c.toNat = 45

/-- A hyphen or underscore, the characters removed by `.strip("-_")`. -/
def isHu (c : Char) : Bool :=
  c.toNat = 45 || c.toNat = 95

/-- ASCII decimal digit, modelling Python's `str.isdigit` on the token
alphabet `[a-z0-9_-]` that `css_class_token` produces. -/
def isDigitChar (c : Char) : Bool :=
  48 ≤ c.toNat && c.toNat ≤ 57

/-- ASCII model of Python's `str.lower()`, applied characterwise. -/
def pyLower (c : Char) : Char :=
  if 65 ≤ c.toNat && c.toNat ≤ 90 then Char.ofNat (c.toNat + 32) else c

/-- Drop the trailing characters satisfying `p`; combined with a leading
`dropWhile` this models Python's `str.strip` family. -/
def dropTrailing (p : Char → Bool) : List Char → List Char
  | [] => []
  | c :: cs =>
    match dropTrailing p cs with
    | [] => if p c then [] else [c]
    | r => c :: r

/-- Strip leading and trailing whitespace (`str.strip()`). -/
def stripWs (l : List Char) : List Char :=
  dropTrailing isPyWs (l.dropWhile isPyWs)

/-- Strip leading and trailing hyphens/underscores (`.strip("-_")`). -/
def stripHu (l : List Char) : List Char :=
  dropTrailing isHu (l.dropWhile isHu)

/-- Worker for `collapseRuns`; the flag records whether the previous character
belonged to a run of disallowed characters (whose single `'-'` replacement was
already emitted). -/
def collapseRunsAux : Bool → List Char → List Char
  | _, [] => []
  | inRun, c :: cs =>
    if allowedChar c then c :: collapseRunsAux false cs
    else if inRun then collapseRunsAux true cs
    else '-' :: collapseRunsAux true cs

/-- Model of `re.sub(r"[^a-zA-Z0-9_-]+", "-", ·)`: every maximal run of characters
outside the class becomes a single hyphen. -/
def collapseRuns (l : List Char) : List Char :=
  collapseRunsAux false l

/-- Model of `graphrender/profile.py::css_class_token`: lower-case, collapse runs of
characters outside `[a-zA-Z0-9_-]` to single hyphens, trim `-`/`_` from both
ends, fall back to `"type-unknown"` when empty, and prefix `"type-"` when the
first character is a digit.  (`str(value or "")` is the identity on the string
inputs considered here; the f-string `f"type-{token}"` is built by list
consing.) -/
def cssClassToken (s : String) : String :=
  match stripHu (collapseRuns ((stripWs s.data).map pyLower)) with
  | [] => "type-unknown"
  | c :: cs =>
    if isDigitChar c then String.mk ('t' :: 'y' :: 'p' :: 'e' :: '-' :: c :: cs)
    else String.mk (c :: cs)

/-- A JSON scalar as found in a `layoutOptions` / `properties` bag. -/
inductive PyVal : Type where
  | str (s : String)
  | num (q : ℚ)
deriving DecidableEq, Repr

/-- Python truthiness for the option values above (`""` and `0` are falsy). -/
def pyTruthy : PyVal → Bool
  | .str s => s ≠ ""
  | .num q => q ≠ 0

/-- Render an option value as a string (`str(value)`); numeric reprs are not
exercised by the claims. -/
def pyStrOf : PyVal → String
  | .str s => s
  | .num q => toString q

/-- Fold a list of ASCII digits into the natural number they denote. -/
def digitsToNat (l : List Char) : Nat :=
  l.foldl (fun a c => a * 10 + (c.toNat - 48)) 0

/-- Parse stage of Python's `float(·)` on a string: optional sign, integer
digits, optional `'.'` and fraction digits.  Returns the sign flag and the two
digit blocks, or `none` for a non-numeric string. -/
def parseDec (l : List Char) : Option (Bool × List Char × List Char) :=
  let signAndRest : Bool × List Char := match l with
    | '-' :: rest => (true, rest)
    | '+' :: rest => (false, rest)
    | _ => (false, l)
  let neg := signAndRest.1
  let intPart := signAndRest.2.takeWhile isDigitChar
  let rest := signAndRest.2.dropWhile isDigitChar
  match rest with
  | [] => if intPart.isEmpty then none else some (neg, intPart, [])
  | '.' :: frac =>
    if frac.all isDigitChar && !(intPart.isEmpty && frac.isEmpty) then
      some (neg, intPart, frac)
    else none
  | _ => none

/-- Python's `float(·)` on a string, for plain decimal literals (optional
sign, integer part, optional fraction); non-numeric strings yield `none`
(modelling the caught `ValueError`; scientific notation is not exercised by
the repository's data). -/
def strToFloat (s : String) : Option ℚ :=
  (parseDec (stripWs s.data)).map fun p =>
    (if p.1 then (-1 : ℚ) else 1) *
      ((digitsToNat p.2.1 : ℚ) + (digitsToNat p.2.2 : ℚ) / (10 ^ p.2.2.length))

/-- Python's `float(value)` on an option value (`TypeError`/`ValueError`
become `none`). -/
def pyFloat : PyVal → Option ℚ
  | .num q => some q
  | .str s => strToFloat s

/-- Model of `ElkGraphSvg._option_value`: read an ELK option from
`layoutOptions`/`properties` with stable precedence (for each key in order,
`layoutOptions` wins over `properties`). -/
def optionValue (opts props : List (String × PyVal)) : List String → Option PyVal
  | [] => none
  | k :: rest =>
    match opts.find? (fun kv => kv.1 = k) with
    | some kv => some kv.2
    | none =>
      match props.find? (fun kv => kv.1 = k) with
      | some kv => some kv.2
      | none => optionValue opts props rest

/-! ## ELK input documents (§3 data model, as read by `_collect_graph`) -/

/-- A section end point or bend point (`{"x": …, "y": …}`). -/
structure ElkPoint where
  x : Option ℚ := none
  y : Option ℚ := none
deriving DecidableEq, Repr

/-- One routed section of an edge. -/
structure ElkSection where
  startPoint : Option ElkPoint := none
  endPoint : Option ElkPoint := none
  bendPoints : List ElkPoint := []
deriving DecidableEq, Repr

/-- A raw ELK label record (`text?`, `x?`, `y?`, `width?`, `height?`, plus the
option bags consulted for a font size). -/
structure ElkLabel where
  id : Option String := none
  text : Option String := none
  x : Option ℚ := none
  y : Option ℚ := none
  width : Option ℚ := none
  height : Option ℚ := none
  layoutOptions : List (String × PyVal) := []
  properties : List (String × PyVal) := []
deriving DecidableEq, Repr

/-- A raw ELK port record. -/
structure ElkPort where
  id : Option String := none
  x : Option ℚ := none
  y : Option ℚ := none
  width : Option ℚ := none
  height : Option ℚ := none
  labels : List ElkLabel := []
deriving DecidableEq, Repr

/-- A raw ELK edge record. -/
structure ElkEdge where
  id : Option String := none
  sources : List String := []
  targets : List String := []
  typ : Option String := none
  sections : List ElkSection := []
  junctionPoints : List ElkPoint := []
  labels : List ElkLabel := []
  layoutOptions : List (String × PyVal) := []
  properties : List (String × PyVal) := []
deriving DecidableEq, Repr

/-- A raw ELK node; the root graph document has the same (node-like) shape, so
it is also an `ElkNode`.  `typ` models the JSON field `"type"`. -/
inductive ElkNode : Type where
  | mk
      (id : Option String)
      (x y width height : Option ℚ)
      (typ icon : Option String)
      (labels : List ElkLabel)
      (ports : List ElkPort)
      (children : List ElkNode)
      (edges : List ElkEdge)

/-- Accessor for `node.get("id")`. -/
def elkId : ElkNode → Option String
  | .mk i _ _ _ _ _ _ _ _ _ _ => i

/-- Accessor for `node.get("x")`. -/
def elkX : ElkNode → Option ℚ
  | .mk _ x _ _ _ _ _ _ _ _ _ => x

/-- Accessor for `node.get("y")`. -/
def elkY : ElkNode → Option ℚ
  | .mk _ _ y _ _ _ _ _ _ _ _ => y

/-- Accessor for `node.get("width")`. -/
def elkWidth : ElkNode → Option ℚ
  | .mk _ _ _ w _ _ _ _ _ _ _ => w

/-- Accessor for `node.get("height")`. -/
def elkHeight : ElkNode → Option ℚ
  | .mk _ _ _ _ h _ _ _ _ _ _ => h

/-- Accessor for `node.get("type")`. -/
def elkType : ElkNode → Option String
  | .mk _ _ _ _ _ t _ _ _ _ _ => t

/-- Accessor for `node.get("icon")`. -/
def elkIcon : ElkNode → Option String
  | .mk _ _ _ _ _ _ ic _ _ _ _ => ic

/-- Accessor for `node.get("labels", [])`. -/
def elkLabels : ElkNode → List ElkLabel
  | .mk _ _ _ _ _ _ _ ls _ _ _ => ls

/-- Accessor for `node.get("ports", [])`. -/
def elkPorts : ElkNode → List ElkPort
  | .mk _ _ _ _ _ _ _ _ ps _ _ => ps

/-- Accessor for `node.get("children", [])`. -/
def elkChildren : ElkNode → List ElkNode
  | .mk _ _ _ _ _ _ _ _ _ cs _ => cs

/-- Accessor for `graph.get("edges", [])`. -/
def elkEdges : ElkNode → List ElkEdge
  | .mk _ _ _ _ _ _ _ _ _ _ es => es

/-! ## Collected records (the flat model built by `_collect_graph`) -/

/-- A collected node record (absolute coordinates plus the raw node). -/
structure NodeRec where
  id : String
  x : ℚ
  y : ℚ
  width : ℚ
  height : ℚ
  raw : ElkNode

/-- A collected port record (absolute coordinates plus inferred side). -/
structure PortRec where
  id : String
  owner : String
  x : ℚ
  y : ℚ
  width : ℚ
  height : ℚ
  side : String
deriving Repr

/-- A collected label record. -/
structure LabelRec where
  ownerKind : Option String
  owner : Option String
  id : Option String
  text : String
  x : ℚ
  y : ℚ
  width : ℚ
  height : ℚ
  fontSize : Option ℚ
deriving DecidableEq, Repr

/-- A collected edge entry: the raw edge plus the absolute offset of the
subgraph frame that declared it. -/
structure EdgeRec where
  edge : ElkEdge
  offX : ℚ
  offY : ℚ

/-- The accumulating collections of an `ElkGraphSvg` instance (`self.nodes`,
`self.edges`, `self.labels`, `self.port_lookup`, `self.node_lookup`).  The two
lookups are insertion-ordered association lists; prepending a record models a
dict overwrite, so a lookup takes the first (most recent) match. -/
structure CollectState where
  nodes : List NodeRec
  edges : List EdgeRec
  labels : List LabelRec
  portLookup : List PortRec
  nodeLookup : List NodeRec

/-- The state of a fresh instance, before `_collect_graph` runs. -/
def emptyState : CollectState :=
  ⟨[], [], [], [], []⟩

/-- Dictionary lookup in `self.port_lookup`. -/
def lookupPort (pl : List PortRec) (pid : String) : Option PortRec :=
  pl.find? (fun p => p.id = pid)

/-- Membership test `pid in self.port_lookup`. -/
def portLookupHas (pl : List PortRec) (pid : String) : Bool :=
  pl.any (fun p => p.id = pid)

/-- Membership test `nid in self.node_lookup`. -/
def nodeLookupHas (nl : List NodeRec) (nid : String) : Bool :=
  nl.any (fun n => n.id = nid)

/-! ## Geometry resolution (`_collect_graph` and helpers) -/

/-- Model of `ElkGraphSvg._font_size`: optional font size from a label's option bags
(unparseable values are treated as absent). -/
def fontSizeOpt (lops props : List (String × PyVal)) : Option ℚ :=
  match optionValue lops props
      ["org.eclipse.elk.font.size", "elk.font.size", "font.size"] with
  | none => none
  | some v => pyFloat v

/-- Model of `ElkGraphSvg._port_side`: infer WEST/EAST/NORTH/SOUTH from the port's
absolute center against the owning node's absolute bounds.  Python's
`min(distances, key=distances.get)` scans the dict in insertion order
(WEST, EAST, NORTH, SOUTH) and keeps the first minimum; the chained
`if d < best` steps below reproduce that scan. -/
def portSide (node : NodeRec) (port : ElkPort) (portAbsX portAbsY : ℚ) : String :=
  let cx := portAbsX + (port.width.getD 0) / 2
  let cy := portAbsY + (port.height.getD 0) / 2
  let dW := |cx - node.x|
  let dE := |cx - (node.x + node.width)|
  let dN := |cy - node.y|
  let dS := |cy - (node.y + node.height)|
  let b1 : String × ℚ := ("WEST", dW)
  let b2 : String × ℚ := if dE < b1.2 then ("EAST", dE) else b1
  let b3 : String × ℚ := if dN < b2.2 then ("NORTH", dN) else b2
  let b4 : String × ℚ := if dS < b3.2 then ("SOUTH", dS) else b3
  b4.1

/-- The label record `_collect_graph` appends for a node label (coordinates
relative to the owning node). -/
def nodeLabelRec (nid : String) (absX absY : ℚ) (l : ElkLabel) : LabelRec :=
  { ownerKind := some "node", owner := some nid, id := l.id,
    text := l.text.getD "",
    x := absX + l.x.getD 0, y := absY + l.y.getD 0,
    width := l.width.getD 0, height := l.height.getD 0,
    fontSize := fontSizeOpt l.layoutOptions l.properties }

/-- The label record `_collect_graph` appends for a port label: coordinates
are relative to the port's absolute position when both are supplied, else the
label sits at the port's center. -/
def portLabelRec (pid : String) (p : PortRec) (l : ElkLabel) : LabelRec :=
  let xy : ℚ × ℚ := match l.x, l.y with
    | some lx, some ly => (p.x + lx, p.y + ly)
    | _, _ => (p.x + p.width / 2, p.y + p.height / 2)
  { ownerKind := some "port", owner := some pid, id := l.id,
    text := l.text.getD "",
    x := xy.1, y := xy.2,
    width := l.width.getD 0, height := l.height.getD 0,
    fontSize := fontSizeOpt l.layoutOptions l.properties }

/-- The label record `_collect_graph` appends for an edge label (coordinates
relative to the declaring subgraph frame). -/
def edgeLabelRec (eid : String) (offX offY : ℚ) (l : ElkLabel) : LabelRec :=
  { ownerKind := some "edge", owner := some eid, id := l.id,
    text := l.text.getD "",
    x := offX + l.x.getD 0, y := offY + l.y.getD 0,
    width := l.width.getD 0, height := l.height.getD 0,
    fontSize := fontSizeOpt l.layoutOptions l.properties }

/-- The port loop of `_collect_graph`: for each port of a node, require its
`"id"` (a missing id raises `KeyError`), compute absolute coordinates and the
inferred side, register it in `port_lookup`, and append its labels. -/
def collectPorts (record : NodeRec) (absX absY : ℚ) :
    List ElkPort → CollectState → Except String CollectState
  | [], st => .ok st
  | p :: rest, st =>
    match p.id with
    | none => .error "KeyError: 'id'"
    | some pid =>
      let pax := absX + p.x.getD 0
      let pay := absY + p.y.getD 0
      let prec : PortRec :=
        { id := pid, owner := record.id, x := pax, y := pay,
          width := p.width.getD 0, height := p.height.getD 0,
          side := portSide record p pax pay }
      let st' : CollectState :=
        { st with portLookup := prec :: st.portLookup,
                  labels := st.labels ++ p.labels.map (portLabelRec pid prec) }
      collectPorts record absX absY rest st'

/-- The per-child body of `_collect_graph`'s `children` loop, before the
recursive descent: require the node's `"id"`, record it (with coordinates made
absolute against the enclosing frame), append its labels, and collect its
ports. -/
def collectOneNode (n : ElkNode) (baseX baseY : ℚ) (st : CollectState) :
    Except String CollectState :=
  match elkId n with
  | none => .error "KeyError: 'id'"
  | some nid =>
    let absX := baseX + (elkX n).getD 0
    let absY := baseY + (elkY n).getD 0
    let record : NodeRec :=
      { id := nid, x := absX, y := absY,
        width := (elkWidth n).getD 0, height := (elkHeight n).getD 0, raw := n }
    let st' : CollectState :=
      { st with nodes := st.nodes ++ [record],
                nodeLookup := record :: st.nodeLookup,
                labels := st.labels ++ (elkLabels n).map (nodeLabelRec nid absX absY) }
    collectPorts record absX absY (elkPorts n) st'

/-- The edge loop of `_collect_graph`: each edge is recorded with the current
frame's offset; its labels require the edge `"id"` (accessed only inside the
label loop, so an edge without labels never touches its id). -/
def collectEdges (offX offY : ℚ) :
    List ElkEdge → CollectState → Except String CollectState
  | [], st => .ok st
  | e :: rest, st =>
    let st' : CollectState := { st with edges := st.edges ++ [⟨e, offX, offY⟩] }
    match e.labels with
    | [] => collectEdges offX offY rest st'
    | _ :: _ =>
      match e.id with
      | none => .error "KeyError: 'id'"
      | some eid =>
        let st'' : CollectState :=
          { st' with labels := st'.labels ++ e.labels.map (edgeLabelRec eid offX offY) }
        collectEdges offX offY rest st''

mutual

/-- Model of `ElkGraphSvg._collect_graph`: depth-first traversal carrying the absolute
offset of the enclosing frame; a subgraph's own origin is the incoming offset
plus its declared `(x, y)` (missing coordinates default to 0). -/
def collectGraph : ElkNode → ℚ × ℚ → CollectState → Except String CollectState
  | .mk _ x y _ _ _ _ _ _ cs es, off, st =>
    let baseX := off.1 + x.getD 0
    let baseY := off.2 + y.getD 0
    match collectChildren cs baseX baseY st with
    | .error e => .error e
    | .ok st' => collectEdges baseX baseY es st'

/-- The `children` loop of `_collect_graph`: record each child, then recurse
into it with the current frame's absolute origin. -/
def collectChildren : List ElkNode → ℚ → ℚ → CollectState → Except String CollectState
  | [], _, _, st => .ok st
  | n :: rest, baseX, baseY, st =>
    match collectOneNode n baseX baseY st with
    | .error e => .error e
    | .ok st' =>
      match collectGraph n (baseX, baseY) st' with
      | .error e => .error e
      | .ok st'' => collectChildren rest baseX baseY st''

end

mutual

/-- Whether a document contains, at any depth, a node without `"id"`, a port
without `"id"`, or an edge that carries labels but has no `"id"` — exactly the
accesses of `_collect_graph` that raise `KeyError` (the root object's own id is
never required). -/
def hasMissingId : ElkNode → Bool
  | .mk _ _ _ _ _ _ _ _ _ cs es =>
    hasMissingIdIn cs || es.any (fun e => e.id.isNone && !e.labels.isEmpty)

/-- Extension of `hasMissingId` over a children list. -/
def hasMissingIdIn : List ElkNode → Bool
  | [] => false
  | c :: rest =>
    (elkId c).isNone || (elkPorts c).any (fun p => p.id.isNone) ||
    hasMissingId c || hasMissingIdIn rest

end

/-! ## Label routing (`_partition_labels`) -/

/-- The three owner-keyed buckets returned by `_partition_labels`, modelled as
total maps from owner key to the (insertion-ordered) list filed there. -/
structure LabelMaps where
  nodeM : String → List LabelRec
  portM : String → List LabelRec
  edgeM : String → List LabelRec

/-- Model of `bucket.setdefault(key, []).append(lbl)`. -/
def addTo (m : String → List LabelRec) (k : String) (l : LabelRec) :
    String → List LabelRec :=
  fun k' => if k' = k then m k' ++ [l] else m k'

/-- Edge ids known to `_partition_labels` (`edge.get("id")`, skipping `None`). -/
def edgeOwnerIds (edges : List EdgeRec) : List String :=
  edges.filterMap (fun er => er.edge.id)

/-- Body of the label loop of `_partition_labels`: explicit `owner_kind` tags
`"node"`/`"port"`/`"edge"` are honored unconditionally (keyed by
`owner or ""`); otherwise the owner id is tried against the edge ids, then the
port lookup, then the node lookup, and finally filed as an edge label under
`owner or ""`. -/
def partitionStep (edgeIds : List String) (pl : List PortRec) (nl : List NodeRec)
    (maps : LabelMaps) (lbl : LabelRec) : LabelMaps :=
  if lbl.ownerKind = some "node" then
    { maps with nodeM := addTo maps.nodeM (lbl.owner.getD "") lbl }
  else if lbl.ownerKind = some "port" then
    { maps with portM := addTo maps.portM (lbl.owner.getD "") lbl }
  else if lbl.ownerKind = some "edge" then
    { maps with edgeM := addTo maps.edgeM (lbl.owner.getD "") lbl }
  else
    match lbl.owner with
    | some o =>
      if edgeIds.contains o then { maps with edgeM := addTo maps.edgeM o lbl }
      else if portLookupHas pl o then { maps with portM := addTo maps.portM o lbl }
      else if nodeLookupHas nl o then { maps with nodeM := addTo maps.nodeM o lbl }
      else { maps with edgeM := addTo maps.edgeM o lbl }
    | none => { maps with edgeM := addTo maps.edgeM "" lbl }

/-- Model of `ElkGraphSvg._partition_labels`: group the collected labels by owner kind. -/
def partitionLabels (st : CollectState) : LabelMaps :=
  st.labels.foldl
    (partitionStep (edgeOwnerIds st.edges) st.portLookup st.nodeLookup)
    ⟨fun _ => [], fun _ => [], fun _ => []⟩

/-! ## Text placement (`_label_text_anchor`, `_label_to_text`) -/

/-- The `svg.Text` produced by `_label_to_text` (SVG-irrelevant fields kept as
plain data). -/
structure TextRec where
  text : String
  x : ℚ
  y : ℚ
  fontSize : ℚ
  textAnchor : String
  dominantBaseline : String
  fill : String
deriving Repr

/-- Model of `ElkGraphSvg._label_text_anchor`: port labels are side-aware (`WEST` →
`"end"`, `EAST` → `"start"`), everything else is `"middle"`.  An absent
`owner_kind` is inferred to be `"port"` when the owner id is truthy and known
to `port_lookup`. -/
def labelTextAnchor (pl : List PortRec) (owner : Option String)
    (ownerKind : Option String) : String :=
  let kind : Option String := match ownerKind, owner with
    | none, some o => if o ≠ "" && portLookupHas pl o then some "port" else none
    | k, _ => k
  match kind, owner with
  | some k, some o =>
    if k = "port" && o ≠ "" && portLookupHas pl o then
      match lookupPort pl o with
      | some p =>
        if p.side = "WEST" then "end"
        else if p.side = "EAST" then "start"
        else "middle"
      | none => "middle"
    else "middle"
  | _, _ => "middle"

/-- Model of `ElkGraphSvg._label_to_text`: center the text inside the label box, pick
the side-aware anchor, and - for port labels - pick the vertical baseline by
comparing the text's y (label y plus half its height) against the port's
vertical center with a `1e-6` tolerance. -/
def labelToText (pl : List PortRec) (defaultFontSize : ℚ) (lbl : LabelRec)
    (ownerKind : Option String) : TextRec :=
  let x := lbl.x + lbl.width / 2
  let y := lbl.y + lbl.height / 2
  let fs : ℚ := match lbl.fontSize with
    | some q => if q ≠ 0 then q else defaultFontSize
    | none => defaultFontSize
  let anchor := labelTextAnchor pl lbl.owner ownerKind
  let kind : Option String := match ownerKind, lbl.owner with
    | none, some o => if o ≠ "" && portLookupHas pl o then some "port" else none
    | k, _ => k
  let baseline : String :=
    match kind, lbl.owner with
    | some k, some o =>
      if k = "port" && o ≠ "" && portLookupHas pl o then
        match lookupPort pl o with
        | some port =>
          let pcy := port.y + port.height / 2
          if y < pcy - 1/1000000 then "text-before-edge"
          else if y > pcy + 1/1000000 then "text-after-edge"
          else "middle"
        | none => "middle"
      else "middle"
    | _, _ => "middle"
  ⟨lbl.text, x, y, fs, anchor, baseline, "#111"⟩

/-! ## Edge styling (`_edge_thickness`, `_edge_rendering`) and group classes -/

/-- Model of `ElkGraphSvg._edge_thickness`: optional stroke width from the edge's
option bags; unparseable values are treated as absent.  (No clamping happens
here.) -/
def edgeThickness (e : ElkEdge) : Option ℚ :=
  match optionValue e.layoutOptions e.properties
      ["org.eclipse.elk.edge.thickness", "elk.edge.thickness",
       "edge.thickness", "stroke.width"] with
  | none => none
  | some v => pyFloat v

/-- Line 911 of `_build_edges_group`:
`edge_thickness = self._edge_thickness(edge) or self.edge_style["stroke_width"]`
(Python `or`: a parsed `0` is falsy and falls back to the default). -/
def edgeStrokeWidth (e : ElkEdge) (defaultWidth : ℚ) : ℚ :=
  match edgeThickness e with
  | some q => if q ≠ 0 then q else defaultWidth
  | none => defaultWidth

/-- ASCII model of Python's `str.upper()`, characterwise. -/
def pyUpper (c : Char) : Char :=
  if 97 ≤ c.toNat && c.toNat ≤ 122 then Char.ofNat (c.toNat - 32) else c

/-- Model of `s.upper()` (ASCII). -/
def asciiUpper (s : String) : String :=
  ⟨s.data.map pyUpper⟩

/-- The Python-`or` chain at the top of `_edge_rendering`:
`self._option_value(edge, "org.eclipse.elk.edge.type", "elk.edge.type") or
edge.get("type")`. -/
def rawEdgeTypeVal (e : ElkEdge) : Option PyVal :=
  match optionValue e.layoutOptions e.properties
      ["org.eclipse.elk.edge.type", "elk.edge.type"] with
  | some v => if pyTruthy v then some v else e.typ.map PyVal.str
  | none => e.typ.map PyVal.str

/-- Model of `str(edge_type).upper() if edge_type else ""`. -/
def upperOrEmpty : Option PyVal → String
  | some v => if pyTruthy v then asciiUpper (pyStrOf v) else ""
  | none => ""

/-- The `edge_type` computed at the top of `_edge_rendering`: the
`org.eclipse.elk.edge.type` option (falling back through Python `or` to the
edge's own `type` field), upper-cased, with falsy values collapsing to `""`. -/
def resolvedEdgeType (e : ElkEdge) : String :=
  upperOrEmpty (rawEdgeTypeVal e)

/-- The marker/stroke policy produced by `_edge_rendering`. -/
structure EdgeRender where
  markerStart : Option String
  markerEnd : Option String
  strokeDasharray : Option String
deriving DecidableEq, Repr

/-- The branch chain of `_edge_rendering` on the resolved (upper-cased) type
string; the defaults (solid arrow at the target, no dash) survive any
unrecognized type. -/
def edgeRenderingOfType (t : String) : EdgeRender :=
  if t = "NONE" ∨ t = "UNDIRECTED" then
    { markerStart := none, markerEnd := none, strokeDasharray := none }
  else if t = "DIRECTED" then
    { markerStart := none, markerEnd := some "url(#arrow)", strokeDasharray := none }
  else if t = "ASSOCIATION" then
    { markerStart := none, markerEnd := some "url(#arrow-open)", strokeDasharray := none }
  else if t = "DEPENDENCY" then
    { markerStart := none, markerEnd := some "url(#arrow-open)", strokeDasharray := some "6 3" }
  else if t = "GENERALIZATION" then
    { markerStart := none, markerEnd := some "url(#triangle-hollow)", strokeDasharray := none }
  else
    { markerStart := none, markerEnd := some "url(#arrow)", strokeDasharray := none }

/-- Model of `ElkGraphSvg._edge_rendering`. -/
def edgeRendering (e : ElkEdge) : EdgeRender :=
  edgeRenderingOfType (resolvedEdgeType e)

/-- Lines 813-819 of `_build_nodes_group`: `class_` of a node group is
`"node"` joined with the raw `type` string when that is truthy. -/
def nodeClassAttr (n : ElkNode) : String :=
  match elkType n with
  | some t => if t ≠ "" then "node " ++ t else "node"
  | none => "node"

/-- Lines 905-908 of `_build_edges_group`: `class_` of an edge group is
`"edge"` joined with the raw `type` string (via `_edge_type`) when truthy. -/
def edgeClassAttr (e : ElkEdge) : String :=
  match e.typ with
  | some t => if t ≠ "" then "edge " ++ t else "edge"
  | none => "edge"

/-! ## Serialization (`_pretty_xml`, `to_string`) -/

/-- Model of `ElkGraphSvg._pretty_xml`: `ET.fromstring` is modelled by the `parse`
parameter (a raised `ParseError` becomes `none`); the post-parse pipeline
(`ET.indent` or the `_indent_xml_tree` backport, then `_indent_style_blocks`,
then `ET.tostring` plus a trailing newline) is abstracted as the `render`
parameter, since the claims about this function concern only the
parse-failure fallback, which returns the input text unchanged. -/
def prettyXml {α : Type} (parse : String → Option α) (render : α → String)
    (xmlText : String) : String :=
  match parse xmlText with
  | none => xmlText
  | some root => render root

/-- Model of `ElkGraphSvg.to_string`: serialize compactly (the `as_str` output is the
`compact` parameter) and pretty-print through `_pretty_xml` when requested. -/
def toStringRender {α : Type} (parse : String → Option α) (render : α → String)
    (compact : String) (pretty : Bool) : String :=
  if !pretty then compact
  else prettyXml parse render compact

/-! ## GraphRender variants that are not under `src/` -/

/-- Modelled from the spec: `graphrender/graphrender.py` (class `GraphRender`,
the package's renderer) is not under `src/`; only its tests and callers are.
Per §7(c) its `_edge_thickness` recovers from a non-positive parsed thickness
by clamping to the minimum visible value 1 (positive and unparseable values
behave as in `ElkGraphSvg._edge_thickness`). -/
def grEdgeThickness (e : ElkEdge) : Option ℚ :=
  match edgeThickness e with
  | none => none
  | some q => some (if q ≤ 0 then 1 else q)

/-- Modelled from the spec: stroke width of an edge drawn by `GraphRender`
(`_edge_thickness(edge) or stroke_width-default`, with the clamped
thickness). -/
def grEdgeStrokeWidth (e : ElkEdge) (defaultWidth : ℚ) : ℚ :=
  match grEdgeThickness e with
  | some q => if q ≠ 0 then q else defaultWidth
  | none => defaultWidth

/-- Modelled from the spec: `GraphRender._build_nodes_group` (not under
`src/`) classes each node group by the fixed `"node"` token plus, when a type
is declared, its classified token (§4.4), produced by
`css_class_token` (§4.3). -/
def grNodeClassAttr (n : ElkNode) : String :=
  match elkType n with
  | some t => if t ≠ "" then "node " ++ cssClassToken t else "node"
  | none => "node"

/-- Modelled from the spec: `GraphRender._build_edges_group` (not under
`src/`) classes each edge group by `"edge"` plus the classified token of its
declared type, when present. -/
def grEdgeClassAttr (e : ElkEdge) : String :=
  match e.typ with
  | some t => if t ≠ "" then "edge " ++ cssClassToken t else "edge"
  | none => "edge"

/-! ## Paths into the nested document (specification vocabulary for C1) -/

/-- The node reached from `n` by taking the `i`-th child at each path step. -/
def nodeAt : List Nat → ElkNode → Option ElkNode
  | [], n => some n
  | i :: p, n =>
    match (elkChildren n).get? i with
    | some c => nodeAt p c
    | none => none

/-- Sum of the declared `x` (default 0) of every node along the path,
including the root document and the target node: the claimed absolute x. -/
def pathAbsX : List Nat → ElkNode → ℚ
  | [], n => (elkX n).getD 0
  | i :: p, n =>
    (elkX n).getD 0 +
      match (elkChildren n).get? i with
      | some c => pathAbsX p c
      | none => 0

/-- Sum of the declared `y` along the path (see `pathAbsX`). -/
def pathAbsY : List Nat → ElkNode → ℚ
  | [], n => (elkY n).getD 0
  | i :: p, n =>
    (elkY n).getD 0 +
      match (elkChildren n).get? i with
      | some c => pathAbsY p c
      | none => 0

/-- The node collection of a collection outcome (empty on abort). -/
def nodesOf : Except String CollectState → List NodeRec
  | .ok st => st.nodes
  | .error _ => []

/-- Whether a collection outcome is a success. -/
def isOkE : Except String CollectState → Bool
  | .ok _ => true
  | .error _ => false

/-! ## Concrete fixtures used by witnesses and counterexamples -/

/-- An empty raw node (used where a `NodeRec.raw` is needed). -/
def emptyElkNode : ElkNode :=
  .mk none none none none none none none [] [] [] []

/-- The nested document of the spec's worked example: a subgraph at `(20,20)`
containing a child at local `(15,10)`. -/
def exNestedDoc : ElkNode :=
  .mk (some "root") none none (some 300) (some 180) none none [] []
    [.mk (some "cluster") (some 20) (some 20) (some 200) (some 120) none none [] []
      [.mk (some "inner") (some 15) (some 10) (some 40) (some 25) none none [] [] [] []]
      []]
    []

/-- The inner child of `exNestedDoc`. -/
def exInnerNode : ElkNode :=
  .mk (some "inner") (some 15) (some 10) (some 40) (some 25) none none [] [] [] []

/-- An untagged label whose owner id is the ambiguous `"shared"`. -/
def exSharedLabel : LabelRec :=
  { ownerKind := none, owner := some "shared", id := none, text := "ambiguous",
    x := 1, y := 1, width := 0, height := 0, fontSize := none }

/-- A collect state in which the id `"shared"` denotes an edge, a port and a
node simultaneously, with one untagged label owned by `"shared"` (mirrors the
repository's label-precedence test). -/
def exSharedState : CollectState :=
  { nodes := [], labels := [exSharedLabel],
    edges := [⟨{ id := some "shared" }, 0, 0⟩],
    portLookup := [⟨"shared", "n", 0, 0, 1, 1, "WEST"⟩],
    nodeLookup := [⟨"shared", 0, 0, 1, 1, emptyElkNode⟩] }

/-- A port whose vertical center is at `y = 10` (for the C7 analysis). -/
def exPortRec : PortRec :=
  ⟨"p1", "n1", 0, 8, 4, 4, "WEST"⟩

/-- A port label sitting `1e-7` above the port's vertical center — above it,
but inside the `1e-6` tolerance band of `_label_to_text`. -/
def exNearCenterLabel : LabelRec :=
  { ownerKind := some "port", owner := some "p1", id := none, text := "L",
    x := 0, y := 10 - 1/10000000, width := 0, height := 0, fontSize := none }

/-- A port label clearly above the port's vertical center (`y = 5` against a
center of `10`). -/
def exAboveLabel : LabelRec :=
  { ownerKind := some "port", owner := some "p1", id := none, text := "A",
    x := 0, y := 5, width := 0, height := 0, fontSize := none }

/-- An edge declaring thickness `-5` (a non-positive thickness option). -/
def exNegThickEdge : ElkEdge :=
  { id := some "e1",
    layoutOptions := [("org.eclipse.elk.edge.thickness", PyVal.num (-5))] }

/-- A node declaring the free-form type string `"Router Core"`. -/
def exTypedNode : ElkNode :=
  .mk (some "n1") (some 10) (some 10) (some 60) (some 30)
    (some "Router Core") none [] [] [] []

/-- An edge declaring the free-form type string `"Edge Dependency"`. -/
def exTypedEdge : ElkEdge :=
  { id := some "e1", typ := some "Edge Dependency" }

/-- An edge declaring the lower-case option value `"dependency"` for
`org.eclipse.elk.edge.type`. -/
def exDependencyEdge : ElkEdge :=
  { id := some "e1",
    layoutOptions := [("org.eclipse.elk.edge.type", PyVal.str "dependency")] }

/-- A document whose only edge has no `"id"` and no labels. -/
def exEdgeNoIdDoc : ElkNode :=
  .mk (some "root") none none (some 10) (some 10) none none [] [] []
    [{ id := none, sources := ["a"], targets := ["b"] }]

/-- A document whose only child node has no `"id"`. -/
def exNodeNoIdDoc : ElkNode :=
  .mk (some "root") none none (some 10) (some 10) none none [] []
    [.mk none (some 1) (some 2) (some 3) (some 4) none none [] [] [] []]
    []

/-! ## Supporting lemmas: character classes and string scrubbing -/

/-- The alphabet every classifier output is drawn from: lower-case letters,
digits, underscore, hyphen. -/
def tokenChar (c : Char) : Bool :=
  (97 ≤ c.toNat && c.toNat ≤ 122) || (48 ≤ c.toNat && c.toNat ≤ 57) ||
  c.toNat = 95 || c.toNat = 45

lemma tokenChar_allowed {c : Char} (h : tokenChar c = true) : allowedChar c = true := by
  simp only [tokenChar, Bool.or_eq_true, Bool.and_eq_true, decide_eq_true_eq] at h
  simp only [allowedChar, Bool.or_eq_true, Bool.and_eq_true, decide_eq_true_eq]
  omega

lemma tokenChar_not_ws {c : Char} (h : tokenChar c = true) : isPyWs c = false := by
  cases hw : isPyWs c with
  | false => rfl
  | true =>
    exfalso
    simp only [tokenChar, Bool.or_eq_true, Bool.and_eq_true, decide_eq_true_eq] at h
    simp only [isPyWs, Bool.or_eq_true, decide_eq_true_eq] at hw
    omega

lemma tokenChar_pyLower_fix {c : Char} (h : tokenChar c = true) : pyLower c = c := by
  unfold pyLower
  rw [if_neg]
  intro hb
  simp only [tokenChar, Bool.or_eq_true, Bool.and_eq_true, decide_eq_true_eq] at h
  simp only [Bool.and_eq_true, decide_eq_true_eq] at hb
  omega

lemma pyLower_not_upper (c : Char) :
    ¬(65 ≤ (pyLower c).toNat ∧ (pyLower c).toNat ≤ 90) := by
  unfold pyLower
  split
  case isTrue hcond =>
    simp only [Bool.and_eq_true, decide_eq_true_eq] at hcond
    obtain ⟨h1, h2⟩ := hcond
    have hof : (Char.ofNat (c.toNat + 32)).toNat = c.toNat + 32 := by
      interval_cases h : c.toNat <;> simp_all
    rw [hof]
    omega
  case isFalse hcond =>
    simp only [Bool.and_eq_true, decide_eq_true_eq, not_and] at hcond
    omega

lemma allowed_lower_tokenChar {c : Char} (ha : allowedChar c = true)
    (hu : ¬(65 ≤ c.toNat ∧ c.toNat ≤ 90)) : tokenChar c = true := by
  simp only [allowedChar, Bool.or_eq_true, Bool.and_eq_true, decide_eq_true_eq] at ha
  simp only [tokenChar, Bool.or_eq_true, Bool.and_eq_true, decide_eq_true_eq]
  omega

lemma mem_collapseRunsAux {flag : Bool} {l : List Char} {c : Char}
    (h : c ∈ collapseRunsAux flag l) :
    c = '-' ∨ (c ∈ l ∧ allowedChar c = true) := by
  induction l generalizing flag with
  | nil => simp [collapseRunsAux] at h
  | cons a as ih =>
    simp only [collapseRunsAux] at h
    by_cases ha : allowedChar a = true
    · rw [if_pos ha] at h
      rcases List.mem_cons.mp h with h1 | h1
      · exact Or.inr ⟨by simp [h1], h1 ▸ ha⟩
      · rcases ih h1 with h2 | ⟨h2, h3⟩
        · exact Or.inl h2
        · exact Or.inr ⟨List.mem_cons_of_mem _ h2, h3⟩
    · rw [if_neg ha] at h
      cases flag with
      | true =>
        simp only [if_pos rfl] at h
        rcases ih h with h2 | ⟨h2, h3⟩
        · exact Or.inl h2
        · exact Or.inr ⟨List.mem_cons_of_mem _ h2, h3⟩
      | false =>
        simp only [Bool.false_eq_true, if_false] at h
        rcases List.mem_cons.mp h with h1 | h1
        · exact Or.inl h1
        · rcases ih h1 with h2 | ⟨h2, h3⟩
          · exact Or.inl h2
          · exact Or.inr ⟨List.mem_cons_of_mem _ h2, h3⟩

lemma collapseRunsAux_fix {flag : Bool} {l : List Char}
    (h : ∀ c ∈ l, allowedChar c = true) : collapseRunsAux flag l = l := by
  induction l generalizing flag with
  | nil => rfl
  | cons a as ih =>
    have ha : allowedChar a = true := h a (by simp)
    simp only [collapseRunsAux, if_pos ha]
    rw [ih fun c hc => h c (List.mem_cons_of_mem _ hc)]

lemma dropWhile_head_false {p : Char → Bool} {l : List Char} {c : Char} {cs : List Char}
    (h : l.dropWhile p = c :: cs) : p c = false := by
  induction l with
  | nil => simp [List.dropWhile] at h
  | cons a as ih =>
    rw [List.dropWhile_cons] at h
    by_cases hp : p a = true
    · rw [if_pos hp] at h; exact ih h
    · rw [if_neg hp] at h
      cases h
      exact Bool.eq_false_iff.mpr hp

lemma dropWhile_fix {p : Char → Bool} {l : List Char}
    (h : ∀ c cs, l = c :: cs → p c = false) : l.dropWhile p = l := by
  cases l with
  | nil => rfl
  | cons a as =>
    rw [List.dropWhile_cons, if_neg]
    rw [h a as rfl]
    simp

lemma mem_dropWhile_sub {p : Char → Bool} {l : List Char} {c : Char}
    (h : c ∈ l.dropWhile p) : c ∈ l := by
  induction l with
  | nil => simp [List.dropWhile] at h
  | cons a as ih =>
    rw [List.dropWhile_cons] at h
    by_cases hp : p a = true
    · rw [if_pos hp] at h; exact List.mem_cons_of_mem _ (ih h)
    · rw [if_neg hp] at h; exact h

lemma mem_dropTrailing_sub {p : Char → Bool} {l : List Char} {c : Char}
    (h : c ∈ dropTrailing p l) : c ∈ l := by
  induction l with
  | nil => simp [dropTrailing] at h
  | cons a as ih =>
    simp only [dropTrailing] at h
    cases hr : dropTrailing p as with
    | nil =>
      rw [hr] at h
      by_cases hp : p a = true
      · rw [if_pos hp] at h; simp at h
      · rw [if_neg hp] at h
        simp only [List.mem_singleton] at h
        simp [h]
    | cons r rs =>
      rw [hr] at h
      rcases List.mem_cons.mp h with h1 | h1
      · simp [h1]
      · exact List.mem_cons_of_mem _ (ih (hr ▸ h1))

lemma dropTrailing_head {p : Char → Bool} {a : Char} {as : List Char}
    {c : Char} {cs : List Char} (h : dropTrailing p (a :: as) = c :: cs) :
    c = a := by
  simp only [dropTrailing] at h
  cases hr : dropTrailing p as with
  | nil =>
    rw [hr] at h
    by_cases hp : p a = true
    · rw [if_pos hp] at h; cases h
    · rw [if_neg hp] at h; cases h; rfl
  | cons r rs =>
    rw [hr] at h
    cases h
    rfl

lemma dropTrailing_last_false {p : Char → Bool} {l : List Char} {c : Char}
    {cs : List Char} (h : (dropTrailing p l).reverse = c :: cs) : p c = false := by
  induction l generalizing c cs with
  | nil => simp [dropTrailing] at h
  | cons a as ih =>
    simp only [dropTrailing] at h
    cases hr : dropTrailing p as with
    | nil =>
      rw [hr] at h
      by_cases hp : p a = true
      · rw [if_pos hp] at h; simp at h
      · rw [if_neg hp] at h
        simp only [List.reverse_singleton] at h
        cases h
        exact Bool.eq_false_iff.mpr hp
    | cons r rs =>
      rw [hr] at h
      rw [List.reverse_cons] at h
      have hne : ((r :: rs).reverse : List Char) ≠ [] := by simp
      cases hrev : (r :: rs).reverse with
      | nil => exact absurd hrev hne
      | cons q qs =>
        rw [hrev] at h
        rw [List.cons_append] at h
        cases h
        exact ih (hr ▸ hrev)

lemma dropTrailing_fix {p : Char → Bool} {l : List Char}
    (h : ∀ c cs, l.reverse = c :: cs → p c = false) : dropTrailing p l = l := by
  induction l with
  | nil => rfl
  | cons a as ih =>
    cases as with
    | nil =>
      have hpa : p a = false := h a [] (by simp)
      simp [dropTrailing, hpa]
    | cons b bs =>
      have ih2 : dropTrailing p (b :: bs) = b :: bs := by
        apply ih
        intro c cs hc
        apply h c (cs ++ [a])
        rw [List.reverse_cons, hc, List.cons_append]
      show (match dropTrailing p (b :: bs) with
        | [] => if p a = true then [] else [a]
        | r => a :: r) = a :: b :: bs
      rw [ih2]

lemma map_fix {f : Char → Char} {l : List Char} (h : ∀ c ∈ l, f c = c) :
    l.map f = l := by
  induction l with
  | nil => rfl
  | cons a as ih =>
    simp only [List.map_cons]
    rw [h a (by simp), ih fun c hc => h c (List.mem_cons_of_mem _ hc)]

lemma cssToken_out_token {l : List Char} {c : Char}
    (hc : c ∈ stripHu (collapseRuns (l.map pyLower))) : tokenChar c = true := by
  unfold stripHu at hc
  have h1 := mem_dropTrailing_sub hc
  have h2 := mem_dropWhile_sub h1
  unfold collapseRuns at h2
  rcases mem_collapseRunsAux h2 with h3 | ⟨h3, h4⟩
  · subst h3; decide
  · rcases List.mem_map.mp h3 with ⟨c₀, _, hc₀⟩
    subst hc₀
    exact allowed_lower_tokenChar h4 (pyLower_not_upper c₀)

lemma stripHu_head_not {X : List Char} {c : Char} {cs : List Char}
    (h : stripHu X = c :: cs) : isHu c = false := by
  unfold stripHu at h
  cases hm : X.dropWhile isHu with
  | nil => rw [hm] at h; simp [dropTrailing] at h
  | cons a as =>
    rw [hm] at h
    have hca := dropTrailing_head h
    rw [hca]
    exact dropWhile_head_false hm

lemma stripHu_last_not {X : List Char} {c : Char} {cs : List Char}
    (h : (stripHu X).reverse = c :: cs) : isHu c = false := by
  unfold stripHu at h
  exact dropTrailing_last_false h

/-- One full pass of the `css_class_token` pipeline is the identity on a list
whose characters are all in the output alphabet and whose ends are not
hyphen/underscore. -/
lemma classifyPass_fix {l : List Char}
    (htok : ∀ c ∈ l, tokenChar c = true)
    (hhead : ∀ c cs, l = c :: cs → isHu c = false)
    (hlast : ∀ c cs, l.reverse = c :: cs → isHu c = false) :
    stripHu (collapseRuns ((stripWs l).map pyLower)) = l := by
  have h1 : stripWs l = l := by
    unfold stripWs
    have hd : l.dropWhile isPyWs = l := by
      apply dropWhile_fix
      intro c cs hc
      exact tokenChar_not_ws (htok c (by rw [hc]; simp))
    rw [hd]
    apply dropTrailing_fix
    intro c cs hc
    have hcl : c ∈ l := by
      rw [← List.mem_reverse, hc]; simp
    exact tokenChar_not_ws (htok c hcl)
  rw [h1]
  rw [map_fix fun c hc => tokenChar_pyLower_fix (htok c hc)]
  have h3 : collapseRuns l = l := by
    unfold collapseRuns
    exact collapseRunsAux_fix fun c hc => tokenChar_allowed (htok c hc)
  rw [h3]
  unfold stripHu
  rw [dropWhile_fix hhead]
  exact dropTrailing_fix hlast

/-! ## Claim C4 -/

/-- C4: the type-token classifier `css_class_token` is a total function on
strings and idempotent: for every string `s`,
`classify (classify s) = classify s`; moreover `classify "100G" = "type-100g"`,
`classify "Router Core" = "router-core"`, and `classify "" = "type-unknown"`.
(Totality is by construction: `cssClassToken` is a Lean function.) -/
theorem cssClassToken_total_idempotent :
    (∀ s : String, cssClassToken (cssClassToken s) = cssClassToken s) ∧
    cssClassToken "100G" = "type-100g" ∧
    cssClassToken "Router Core" = "router-core" ∧
    cssClassToken "" = "type-unknown" := by
  refine ⟨?_, by decide, by decide, by decide⟩
  intro s
  cases h : stripHu (collapseRuns ((stripWs s.data).map pyLower)) with
  | nil =>
    have hs : cssClassToken s = "type-unknown" := by
      unfold cssClassToken
      rw [h]
    rw [hs]
    decide
  | cons c cs =>
    have htokl : ∀ d ∈ (c :: cs : List Char), tokenChar d = true := by
      intro d hd
      exact cssToken_out_token (h ▸ hd)
    have hheadl : isHu c = false := stripHu_head_not h
    have hlastl : ∀ d ds, (c :: cs : List Char).reverse = d :: ds → isHu d = false := by
      intro d ds hd
      exact stripHu_last_not (by rw [h]; exact hd)
    by_cases hdig : isDigitChar c = true
    · have hs : cssClassToken s = String.mk ('t' :: 'y' :: 'p' :: 'e' :: '-' :: c :: cs) := by
        unfold cssClassToken
        rw [h]
        show (if isDigitChar c = true
          then String.mk ('t' :: 'y' :: 'p' :: 'e' :: '-' :: c :: cs)
          else String.mk (c :: cs)) = String.mk ('t' :: 'y' :: 'p' :: 'e' :: '-' :: c :: cs)
        rw [if_pos hdig]
      rw [hs]
      have htok₂ : ∀ d ∈ ('t' :: 'y' :: 'p' :: 'e' :: '-' :: c :: cs : List Char),
          tokenChar d = true := by
        intro d hd
        simp only [List.mem_cons] at hd
        rcases hd with rfl | rfl | rfl | rfl | rfl | hd
        · decide
        · decide
        · decide
        · decide
        · decide
        · exact htokl d (List.mem_cons.mpr hd)
      have hhead₂ : ∀ d ds,
          ('t' :: 'y' :: 'p' :: 'e' :: '-' :: c :: cs : List Char) = d :: ds →
          isHu d = false := by
        intro d ds hd
        cases hd
        decide
      have hlast₂ : ∀ d ds,
          ('t' :: 'y' :: 'p' :: 'e' :: '-' :: c :: cs : List Char).reverse = d :: ds →
          isHu d = false := by
        intro d ds hd
        have hsplit : ('t' :: 'y' :: 'p' :: 'e' :: '-' :: c :: cs : List Char).reverse
            = (c :: cs).reverse ++ ['-', 'e', 'p', 'y', 't'] := by
          simp
        rw [hsplit] at hd
        cases hq : (c :: cs : List Char).reverse with
        | nil =>
          exfalso
          have := congrArg List.length hq
          simp at this
        | cons q qs =>
          rw [hq, List.cons_append] at hd
          cases hd
          exact hlastl _ _ hq
      have hfix := classifyPass_fix htok₂ hhead₂ hlast₂
      unfold cssClassToken
      rw [show (String.mk ('t' :: 'y' :: 'p' :: 'e' :: '-' :: c :: cs)).data
          = 't' :: 'y' :: 'p' :: 'e' :: '-' :: c :: cs from rfl]
      rw [hfix]
      show (if isDigitChar 't' = true
        then String.mk ('t' :: 'y' :: 'p' :: 'e' :: '-' :: 't' :: 'y' :: 'p' :: 'e' :: '-' :: c :: cs)
        else String.mk ('t' :: 'y' :: 'p' :: 'e' :: '-' :: c :: cs))
        = String.mk ('t' :: 'y' :: 'p' :: 'e' :: '-' :: c :: cs)
      rw [if_neg (by decide)]
    · have hs : cssClassToken s = String.mk (c :: cs) := by
        unfold cssClassToken
        rw [h]
        show (if isDigitChar c = true
          then String.mk ('t' :: 'y' :: 'p' :: 'e' :: '-' :: c :: cs)
          else String.mk (c :: cs)) = String.mk (c :: cs)
        rw [if_neg hdig]
      rw [hs]
      have hfix := classifyPass_fix htokl
        (fun d ds hd => by cases hd; exact hheadl) hlastl
      unfold cssClassToken
      rw [show (String.mk (c :: cs)).data = c :: cs from rfl]
      rw [hfix]
      show (if isDigitChar c = true
        then String.mk ('t' :: 'y' :: 'p' :: 'e' :: '-' :: c :: cs)
        else String.mk (c :: cs)) = String.mk (c :: cs)
      rw [if_neg hdig]

/-! ## Claim C3 -/

/-- C3: for every collected port, the inferred side is the argmin over the
four distances from the port's absolute center to the owning node's left,
right, top and bottom boundaries, mapped to WEST, EAST, NORTH, SOUTH in that
order, with ties broken by that enumeration order (WEST before EAST before
NORTH before SOUTH).  Stated as the four defining cases of a first-minimum
scan: WEST whenever its distance is less than or equal to all others; each
later side only when it is strictly smaller than every earlier side's distance
and no later side does better or equal. -/
theorem portSide_argmin (node : NodeRec) (port : ElkPort) (pax pay : ℚ)
    (dW dE dN dS : ℚ)
    (hW : dW = |pax + port.width.getD 0 / 2 - node.x|)
    (hE : dE = |pax + port.width.getD 0 / 2 - (node.x + node.width)|)
    (hN : dN = |pay + port.height.getD 0 / 2 - node.y|)
    (hS : dS = |pay + port.height.getD 0 / 2 - (node.y + node.height)|) :
    (dW ≤ dE → dW ≤ dN → dW ≤ dS → portSide node port pax pay = "WEST") ∧
    (dE < dW → dE ≤ dN → dE ≤ dS → portSide node port pax pay = "EAST") ∧
    (dN < dW → dN < dE → dN ≤ dS → portSide node port pax pay = "NORTH") ∧
    (dS < dW → dS < dE → dS < dN → portSide node port pax pay = "SOUTH") := by
  subst hW hE hN hS
  refine ⟨?_, ?_, ?_, ?_⟩ <;>
    · intro h1 h2 h3
      simp only [portSide]
      split_ifs <;> simp_all <;> linarith

lemma pyUpper_not_lower (c : Char) :
    ¬(97 ≤ (pyUpper c).toNat ∧ (pyUpper c).toNat ≤ 122) := by
  unfold pyUpper
  split
  case isTrue hcond =>
    simp only [Bool.and_eq_true, decide_eq_true_eq] at hcond
    obtain ⟨h1, h2⟩ := hcond
    have hof : (Char.ofNat (c.toNat - 32)).toNat = c.toNat - 32 := by
      interval_cases h : c.toNat <;> simp_all
    rw [hof]
    omega
  case isFalse hcond =>
    simp only [Bool.and_eq_true, decide_eq_true_eq, not_and] at hcond
    omega

lemma pyUpper_idem (c : Char) : pyUpper (pyUpper c) = pyUpper c := by
  have h := pyUpper_not_lower c
  rw [show pyUpper (pyUpper c)
      = if 97 ≤ (pyUpper c).toNat && (pyUpper c).toNat ≤ 122
        then Char.ofNat ((pyUpper c).toNat - 32) else pyUpper c from rfl]
  rw [if_neg]
  intro hb
  simp only [Bool.and_eq_true, decide_eq_true_eq] at hb
  exact h ⟨hb.1, hb.2⟩

lemma mapCongrOn (f g : Char → Char) (l : List Char) (h : ∀ c ∈ l, f c = g c) :
    l.map f = l.map g := by
  induction l with
  | nil => rfl
  | cons a as ih =>
    simp only [List.map_cons]
    rw [h a (by simp), ih fun c hc => h c (List.mem_cons_of_mem _ hc)]

lemma asciiUpper_idem (s : String) : asciiUpper (asciiUpper s) = asciiUpper s := by
  unfold asciiUpper
  rw [show (String.mk (s.data.map pyUpper)).data = s.data.map pyUpper from rfl]
  rw [List.map_map]
  rw [mapCongrOn (pyUpper ∘ pyUpper) pyUpper s.data fun c _ => pyUpper_idem c]

lemma upperOrEmpty_upper (o : Option PyVal) :
    upperOrEmpty o = asciiUpper (upperOrEmpty o) := by
  cases o with
  | none => rfl
  | some v =>
    show (if pyTruthy v = true then asciiUpper (pyStrOf v) else "")
      = asciiUpper (if pyTruthy v = true then asciiUpper (pyStrOf v) else "")
    by_cases hv : pyTruthy v = true
    · rw [if_pos hv]
      exact (asciiUpper_idem (pyStrOf v)).symm
    · rw [if_neg hv]
      rfl

/-- Witness for C3: a port (zero-sized, so its center is its position) centered
on the left edge of a `10 × 10` node infers `WEST`. -/
theorem portSide_argmin_witness :
    portSide ⟨"n1", 0, 0, 10, 10, emptyElkNode⟩ { id := some "p" } 0 5 = "WEST" :=
  (portSide_argmin ⟨"n1", 0, 0, 10, 10, emptyElkNode⟩ { id := some "p" } 0 5
      0 10 5 5
      (by norm_num) (by norm_num) (by norm_num) (by norm_num)).1
    (by norm_num) (by norm_num) (by norm_num)

/-! ## Claim C6 -/

/-- C6: the edge-type-to-marker mapping is a pure, case-insensitive
function of the resolved edge type string: the rendering factors through
`resolvedEdgeType` (which is already upper-cased, last conjunct), `NONE` and
`UNDIRECTED` yield no end marker, `DIRECTED` the solid arrow, `ASSOCIATION`
the open arrow, `DEPENDENCY` the open arrow plus dash pattern `"6 3"`,
`GENERALIZATION` the hollow triangle, and an absent or unrecognized type the
solid arrow default. -/
theorem edgeRendering_pure_mapping (e : ElkEdge) :
    edgeRendering e = edgeRenderingOfType (resolvedEdgeType e) ∧
    resolvedEdgeType e = asciiUpper (resolvedEdgeType e) ∧
    (resolvedEdgeType e = "NONE" ∨ resolvedEdgeType e = "UNDIRECTED" →
      (edgeRendering e).markerEnd = none ∧ (edgeRendering e).strokeDasharray = none) ∧
    (resolvedEdgeType e = "DIRECTED" →
      (edgeRendering e).markerEnd = some "url(#arrow)" ∧
      (edgeRendering e).strokeDasharray = none) ∧
    (resolvedEdgeType e = "ASSOCIATION" →
      (edgeRendering e).markerEnd = some "url(#arrow-open)" ∧
      (edgeRendering e).strokeDasharray = none) ∧
    (resolvedEdgeType e = "DEPENDENCY" →
      (edgeRendering e).markerEnd = some "url(#arrow-open)" ∧
      (edgeRendering e).strokeDasharray = some "6 3") ∧
    (resolvedEdgeType e = "GENERALIZATION" →
      (edgeRendering e).markerEnd = some "url(#triangle-hollow)" ∧
      (edgeRendering e).strokeDasharray = none) ∧
    (resolvedEdgeType e ∉ (["NONE", "UNDIRECTED", "DIRECTED", "ASSOCIATION",
        "DEPENDENCY", "GENERALIZATION"] : List String) →
      (edgeRendering e).markerEnd = some "url(#arrow)" ∧
      (edgeRendering e).strokeDasharray = none) := by
  refine ⟨rfl, upperOrEmpty_upper _, ?_, ?_, ?_, ?_, ?_, ?_⟩
  · intro ht
    unfold edgeRendering
    rcases ht with ht | ht <;> rw [ht] <;> exact ⟨rfl, rfl⟩
  · intro ht
    unfold edgeRendering
    rw [ht]
    exact ⟨rfl, rfl⟩
  · intro ht
    unfold edgeRendering
    rw [ht]
    exact ⟨rfl, rfl⟩
  · intro ht
    unfold edgeRendering
    rw [ht]
    exact ⟨rfl, rfl⟩
  · intro ht
    unfold edgeRendering
    rw [ht]
    exact ⟨rfl, rfl⟩
  · intro ht
    simp only [List.mem_cons, List.not_mem_nil, or_false, not_or] at ht
    obtain ⟨h1, h2, h3, h4, h5, h6⟩ := ht
    unfold edgeRendering edgeRenderingOfType
    rw [if_neg (by simp [h1, h2]), if_neg h3, if_neg h4, if_neg h5, if_neg h6]
    exact ⟨rfl, rfl⟩

/-- Witness for C6: an edge whose type option is the lower-case string
`"dependency"` resolves to `"DEPENDENCY"` and renders with the open-arrow end
marker and dash pattern `"6 3"`. -/
theorem edgeRendering_pure_mapping_witness :
    (edgeRendering exDependencyEdge).markerEnd = some "url(#arrow-open)" ∧
    (edgeRendering exDependencyEdge).strokeDasharray = some "6 3" :=
  (edgeRendering_pure_mapping exDependencyEdge).2.2.2.2.2.1 (by decide)

/-! ## Claim C10 -/

/-- C10: pretty serialization is total with respect to malformed markup:
for every parser outcome and post-parse pipeline, when the compact
serialization cannot be parsed as XML (`parse s = none`, the caught
`ET.ParseError`), `to_string(pretty=True)` returns the compact text unchanged
instead of an indented form — so the pretty path never propagates a parse
failure. -/
theorem toString_pretty_total {α : Type} (parse : String → Option α)
    (render : α → String) (s : String) (h : parse s = none) :
    toStringRender parse render s true = s ∧ prettyXml parse render s = s := by
  have hp : prettyXml parse render s = s := by
    unfold prettyXml
    rw [h]
  exact ⟨by unfold toStringRender; simpa using hp, hp⟩

/-- Witness for C10 at a concrete failing parse. -/
theorem toString_pretty_total_witness :
    toStringRender (fun _ : String => (none : Option Unit)) (fun _ => "")
      "<svg" true = "<svg" :=
  (toString_pretty_total (fun _ : String => (none : Option Unit)) (fun _ => "")
    "<svg" rfl).1

/-! ## Claim C8 -/

/-- C8 (code bug): the claim — backed by the spec (§7c) and by the
repository's own test
`test_edge_thickness_normalizes_non_positive_and_invalid_values`, which
expects `_edge_thickness` to yield `1.0` for `"0"` and `-5` — says a
non-positive declared thickness is clamped to the minimum visible value 1.
The code under `src/` does not clamp: evaluated at an edge declaring
thickness `-5`, `_edge_thickness` returns `-5` and the polyline stroke width
(line 911) becomes `-5`; the spec-modelled `GraphRender` thickness (whose
source is not under `src/`) yields the claimed `1`. -/
theorem edgeThickness_not_clamped :
    edgeThickness exNegThickEdge = some (-5) ∧
    edgeStrokeWidth exNegThickEdge (3/2) = -5 ∧
    grEdgeThickness exNegThickEdge = some 1 ∧
    grEdgeStrokeWidth exNegThickEdge (3/2) = 1 ∧
    edgeStrokeWidth exNegThickEdge (3/2) ≠ 1 := by
  refine ⟨rfl, rfl, rfl, rfl, ?_⟩
  rw [show edgeStrokeWidth exNegThickEdge (3/2) = -5 from rfl]
  norm_num

/-! ## Claim C5 -/

/-- C5 (code bug): the claim — backed by the spec (§4.4) and the
repository's test asserting `class="node router-core"` /
`class="edge edge-dependency"` in the rendered output — says a declared type
string contributes its classified CSS-safe token to the group's class.  The
`_build_nodes_group` / `_build_edges_group` code under `src/` appends the raw
type string instead: a node of type `"Router Core"` is classed
`"node Router Core"`, not `"node router-core"`; the spec-modelled
`GraphRender` class attribute (whose source is not under `src/`) yields the
claimed classified form. -/
theorem groupClass_not_classified :
    nodeClassAttr exTypedNode = "node Router Core" ∧
    grNodeClassAttr exTypedNode = "node router-core" ∧
    edgeClassAttr exTypedEdge = "edge Edge Dependency" ∧
    grEdgeClassAttr exTypedEdge = "edge edge-dependency" ∧
    nodeClassAttr exTypedNode ≠ "node " ++ cssClassToken "Router Core" ∧
    edgeClassAttr exTypedEdge ≠ "edge " ++ cssClassToken "Edge Dependency" := by
  refine ⟨by decide, by decide, by decide, by decide, by decide, by decide⟩


/-! ## Claim C7 -/

lemma any_of_find {α : Type} {p : α → Bool} {l : List α} {a : α}
    (h : l.find? p = some a) : l.any p = true := by
  induction l with
  | nil => simp [List.find?] at h
  | cons x xs ih =>
    rw [List.any_cons]
    cases hx : p x with
    | true => simp [hx]
    | false =>
      rw [List.find?_cons, hx] at h
      simp [hx, ih h]

lemma lookupPort_has {pl : List PortRec} {o : String} {port : PortRec}
    (h : lookupPort pl o = some port) : portLookupHas pl o = true :=
  any_of_find h

/-- The case analysis of `_label_to_text`'s baseline choice for a label
rendered with owner-kind `"port"` whose truthy owner id resolves in the port
lookup. -/
lemma labelBaseline_cases (pl : List PortRec) (fs : ℚ) (lbl : LabelRec)
    (o : String) (port : PortRec)
    (ho : lbl.owner = some o) (hne : o ≠ "")
    (hfound : lookupPort pl o = some port) :
    (lbl.y + lbl.height / 2 < port.y + port.height / 2 - 1/1000000 →
      (labelToText pl fs lbl (some "port")).dominantBaseline = "text-before-edge") ∧
    (lbl.y + lbl.height / 2 > port.y + port.height / 2 + 1/1000000 →
      (labelToText pl fs lbl (some "port")).dominantBaseline = "text-after-edge") ∧
    (port.y + port.height / 2 - 1/1000000 ≤ lbl.y + lbl.height / 2 →
      lbl.y + lbl.height / 2 ≤ port.y + port.height / 2 + 1/1000000 →
      (labelToText pl fs lbl (some "port")).dominantBaseline = "middle") := by
  have hhas := lookupPort_has hfound
  refine ⟨?_, ?_, ?_⟩
  · intro h1
    simp only [labelToText, ho, hfound, hhas, decide_True, decide_eq_true hne,
      Bool.and_self, Bool.true_and, Bool.and_true, if_true]
    rw [if_pos h1]
  · intro h1
    simp only [labelToText, ho, hfound, hhas, decide_True, decide_eq_true hne,
      Bool.and_self, Bool.true_and, Bool.and_true, if_true]
    rw [if_neg (by linarith), if_pos h1]
  · intro h1 h2
    simp only [labelToText, ho, hfound, hhas, decide_True, decide_eq_true hne,
      Bool.and_self, Bool.true_and, Bool.and_true, if_true]
    rw [if_neg (by linarith), if_neg (by linarith)]

/-- C7 (counterexample): the claim says a label above the owning port's
vertical center yields baseline `"text-before-edge"`.  A label whose center
sits `1e-7` above the port's center — above it, but within the code's `1e-6`
tolerance — is rendered with baseline `"middle"`. -/
theorem labelBaseline_epsilon_counterexample :
    exNearCenterLabel.y + exNearCenterLabel.height / 2
      < exPortRec.y + exPortRec.height / 2 ∧
    (labelToText [exPortRec] 12 exNearCenterLabel (some "port")).dominantBaseline
      = "middle" ∧
    "middle" ≠ "text-before-edge" := by
  refine ⟨by norm_num [exNearCenterLabel, exPortRec], ?_, by decide⟩
  exact (labelBaseline_cases [exPortRec] 12 exNearCenterLabel "p1" exPortRec
      rfl (by decide) rfl).2.2
    (by norm_num [exNearCenterLabel, exPortRec])
    (by norm_num [exNearCenterLabel, exPortRec])

/-- C7 (amended): for every label attached to a port (rendered with
owner-kind `"port"`, a truthy owner id, and the port found in the lookup), the
baseline compares the label's vertical center (absolute y plus half the
height) against the port's vertical center with a `1e-6` tolerance: more than
`1e-6` above yields `"text-before-edge"`, more than `1e-6` below yields
`"text-after-edge"`, and otherwise the baseline is `"middle"`. -/
theorem labelBaseline_amended (pl : List PortRec) (fs : ℚ) (lbl : LabelRec)
    (o : String) (port : PortRec)
    (ho : lbl.owner = some o) (hne : o ≠ "")
    (hfound : lookupPort pl o = some port) :
    (lbl.y + lbl.height / 2 < port.y + port.height / 2 - 1/1000000 →
      (labelToText pl fs lbl (some "port")).dominantBaseline = "text-before-edge") ∧
    (lbl.y + lbl.height / 2 > port.y + port.height / 2 + 1/1000000 →
      (labelToText pl fs lbl (some "port")).dominantBaseline = "text-after-edge") ∧
    (port.y + port.height / 2 - 1/1000000 ≤ lbl.y + lbl.height / 2 →
      lbl.y + lbl.height / 2 ≤ port.y + port.height / 2 + 1/1000000 →
      (labelToText pl fs lbl (some "port")).dominantBaseline = "middle") :=
  labelBaseline_cases pl fs lbl o port ho hne hfound

/-- Witness for C7 (amended): a label centered 5 units above the port center
renders with baseline `"text-before-edge"`. -/
theorem labelBaseline_amended_witness :
    (labelToText [exPortRec] 12 exAboveLabel (some "port")).dominantBaseline
      = "text-before-edge" :=
  (labelBaseline_amended [exPortRec] 12 exAboveLabel "p1" exPortRec
    rfl (by decide) rfl).1 (by norm_num [exAboveLabel, exPortRec])

/-! ## Claim C2 -/

lemma addTo_self (m : String → List LabelRec) (k : String) (lbl : LabelRec) :
    lbl ∈ addTo m k lbl k := by
  unfold addTo
  rw [if_pos rfl]
  exact List.mem_append_right _ (by simp)

lemma addTo_mono {m : String → List LabelRec} {k' : String} {lbl' : LabelRec}
    {k : String} {l : LabelRec} (h : l ∈ m k) : l ∈ addTo m k' lbl' k := by
  unfold addTo
  split_ifs
  · exact List.mem_append_left _ h
  · exact h

/-- Every branch of the label loop only appends, so bucket membership is
preserved by processing further labels. -/
lemma partitionStep_mono (ids : List String) (pl : List PortRec)
    (nl : List NodeRec) (maps : LabelMaps) (lbl' : LabelRec) (l : LabelRec)
    (k : String) :
    (l ∈ maps.nodeM k → l ∈ (partitionStep ids pl nl maps lbl').nodeM k) ∧
    (l ∈ maps.portM k → l ∈ (partitionStep ids pl nl maps lbl').portM k) ∧
    (l ∈ maps.edgeM k → l ∈ (partitionStep ids pl nl maps lbl').edgeM k) := by
  unfold partitionStep
  split_ifs
  · exact ⟨fun h => addTo_mono h, fun h => h, fun h => h⟩
  · exact ⟨fun h => h, fun h => addTo_mono h, fun h => h⟩
  · exact ⟨fun h => h, fun h => h, fun h => addTo_mono h⟩
  · cases lbl'.owner with
    | none => exact ⟨fun h => h, fun h => h, fun h => addTo_mono h⟩
    | some o =>
      dsimp only
      split_ifs
      · exact ⟨fun h => h, fun h => h, fun h => addTo_mono h⟩
      · exact ⟨fun h => h, fun h => addTo_mono h, fun h => h⟩
      · exact ⟨fun h => addTo_mono h, fun h => h, fun h => h⟩
      · exact ⟨fun h => h, fun h => h, fun h => addTo_mono h⟩

lemma partitionFold_mono (ids : List String) (pl : List PortRec)
    (nl : List NodeRec) (ls : List LabelRec) (maps : LabelMaps) (l : LabelRec)
    (k : String) :
    (l ∈ maps.nodeM k →
      l ∈ (ls.foldl (partitionStep ids pl nl) maps).nodeM k) ∧
    (l ∈ maps.portM k →
      l ∈ (ls.foldl (partitionStep ids pl nl) maps).portM k) ∧
    (l ∈ maps.edgeM k →
      l ∈ (ls.foldl (partitionStep ids pl nl) maps).edgeM k) := by
  induction ls generalizing maps with
  | nil => exact ⟨fun h => h, fun h => h, fun h => h⟩
  | cons a as ih =>
    simp only [List.foldl_cons]
    refine ⟨?_, ?_, ?_⟩
    · intro h
      exact (ih (partitionStep ids pl nl maps a)).1
        ((partitionStep_mono ids pl nl maps a l k).1 h)
    · intro h
      exact (ih (partitionStep ids pl nl maps a)).2.1
        ((partitionStep_mono ids pl nl maps a l k).2.1 h)
    · intro h
      exact (ih (partitionStep ids pl nl maps a)).2.2
        ((partitionStep_mono ids pl nl maps a l k).2.2 h)

/-- Processing a label files it exactly where the routing rule says. -/
lemma partitionStep_self (ids : List String) (pl : List PortRec)
    (nl : List NodeRec) (maps : LabelMaps) (lbl : LabelRec) :
    (lbl.ownerKind = some "node" →
      lbl ∈ (partitionStep ids pl nl maps lbl).nodeM (lbl.owner.getD "")) ∧
    (lbl.ownerKind = some "port" →
      lbl ∈ (partitionStep ids pl nl maps lbl).portM (lbl.owner.getD "")) ∧
    (lbl.ownerKind = some "edge" →
      lbl ∈ (partitionStep ids pl nl maps lbl).edgeM (lbl.owner.getD "")) ∧
    (lbl.ownerKind ∉ ([some "node", some "port", some "edge"] : List (Option String)) →
      (∀ o, lbl.owner = some o → ids.contains o = true →
        lbl ∈ (partitionStep ids pl nl maps lbl).edgeM o) ∧
      (∀ o, lbl.owner = some o → ids.contains o = false →
        portLookupHas pl o = true →
        lbl ∈ (partitionStep ids pl nl maps lbl).portM o) ∧
      (∀ o, lbl.owner = some o → ids.contains o = false →
        portLookupHas pl o = false → nodeLookupHas nl o = true →
        lbl ∈ (partitionStep ids pl nl maps lbl).nodeM o) ∧
      (∀ o, lbl.owner = some o → ids.contains o = false →
        portLookupHas pl o = false → nodeLookupHas nl o = false →
        lbl ∈ (partitionStep ids pl nl maps lbl).edgeM o) ∧
      (lbl.owner = none →
        lbl ∈ (partitionStep ids pl nl maps lbl).edgeM "")) := by
  by_cases h1 : lbl.ownerKind = some "node"
  · refine ⟨fun _ => ?_, fun h => absurd (h1.symm.trans h) (by decide),
      fun h => absurd (h1.symm.trans h) (by decide),
      fun h => absurd (by rw [h1]; decide) h⟩
    unfold partitionStep
    rw [if_pos h1]
    exact addTo_self _ _ _
  · by_cases h2 : lbl.ownerKind = some "port"
    · refine ⟨fun h => absurd (h2.symm.trans h) (by decide), fun _ => ?_,
        fun h => absurd (h2.symm.trans h) (by decide),
        fun h => absurd (by rw [h2]; decide) h⟩
      unfold partitionStep
      rw [if_neg h1, if_pos h2]
      exact addTo_self _ _ _
    · by_cases h3 : lbl.ownerKind = some "edge"
      · refine ⟨fun h => absurd (h3.symm.trans h) (by decide),
          fun h => absurd (h3.symm.trans h) (by decide), fun _ => ?_,
          fun h => absurd (by rw [h3]; decide) h⟩
        unfold partitionStep
        rw [if_neg h1, if_neg h2, if_pos h3]
        exact addTo_self _ _ _
      · refine ⟨fun h => absurd h h1, fun h => absurd h h2, fun h => absurd h h3,
          fun _ => ⟨?_, ?_, ?_, ?_, ?_⟩⟩
        · intro o ho hc
          unfold partitionStep
          rw [if_neg h1, if_neg h2, if_neg h3, ho]
          dsimp only
          rw [if_pos hc]
          exact addTo_self _ _ _
        · intro o ho hc hp
          unfold partitionStep
          rw [if_neg h1, if_neg h2, if_neg h3, ho]
          dsimp only
          rw [if_neg (by rw [hc]; exact Bool.false_ne_true), if_pos hp]
          exact addTo_self _ _ _
        · intro o ho hc hp hn
          unfold partitionStep
          rw [if_neg h1, if_neg h2, if_neg h3, ho]
          dsimp only
          rw [if_neg (by rw [hc]; exact Bool.false_ne_true),
            if_neg (by rw [hp]; exact Bool.false_ne_true), if_pos hn]
          exact addTo_self _ _ _
        · intro o ho hc hp hn
          unfold partitionStep
          rw [if_neg h1, if_neg h2, if_neg h3, ho]
          dsimp only
          rw [if_neg (by rw [hc]; exact Bool.false_ne_true),
            if_neg (by rw [hp]; exact Bool.false_ne_true),
            if_neg (by rw [hn]; exact Bool.false_ne_true)]
          exact addTo_self _ _ _
        · intro ho
          unfold partitionStep
          rw [if_neg h1, if_neg h2, if_neg h3, ho]
          dsimp only
          exact addTo_self _ _ _

lemma partitionFold_mem (ids : List String) (pl : List PortRec)
    (nl : List NodeRec) (ls : List LabelRec) (maps : LabelMaps) (lbl : LabelRec)
    (hl : lbl ∈ ls) :
    (lbl.ownerKind = some "node" →
      lbl ∈ (ls.foldl (partitionStep ids pl nl) maps).nodeM (lbl.owner.getD "")) ∧
    (lbl.ownerKind = some "port" →
      lbl ∈ (ls.foldl (partitionStep ids pl nl) maps).portM (lbl.owner.getD "")) ∧
    (lbl.ownerKind = some "edge" →
      lbl ∈ (ls.foldl (partitionStep ids pl nl) maps).edgeM (lbl.owner.getD "")) ∧
    (lbl.ownerKind ∉ ([some "node", some "port", some "edge"] : List (Option String)) →
      (∀ o, lbl.owner = some o → ids.contains o = true →
        lbl ∈ (ls.foldl (partitionStep ids pl nl) maps).edgeM o) ∧
      (∀ o, lbl.owner = some o → ids.contains o = false →
        portLookupHas pl o = true →
        lbl ∈ (ls.foldl (partitionStep ids pl nl) maps).portM o) ∧
      (∀ o, lbl.owner = some o → ids.contains o = false →
        portLookupHas pl o = false → nodeLookupHas nl o = true →
        lbl ∈ (ls.foldl (partitionStep ids pl nl) maps).nodeM o) ∧
      (∀ o, lbl.owner = some o → ids.contains o = false →
        portLookupHas pl o = false → nodeLookupHas nl o = false →
        lbl ∈ (ls.foldl (partitionStep ids pl nl) maps).edgeM o) ∧
      (lbl.owner = none →
        lbl ∈ (ls.foldl (partitionStep ids pl nl) maps).edgeM "")) := by
  revert hl
  induction ls generalizing maps with
  | nil =>
    intro hl
    simp at hl
  | cons a as ih =>
    intro hl
    simp only [List.foldl_cons]
    rcases List.mem_cons.mp hl with rfl | hl'
    · have hself := partitionStep_self ids pl nl maps lbl
      have hmono := fun k => partitionFold_mono ids pl nl as
        (partitionStep ids pl nl maps lbl) lbl k
      refine ⟨fun h => (hmono _).1 (hself.1 h),
        fun h => (hmono _).2.1 (hself.2.1 h),
        fun h => (hmono _).2.2 (hself.2.2.1 h),
        fun h => ⟨?_, ?_, ?_, ?_, ?_⟩⟩
      · intro o ho hc
        exact (hmono o).2.2 ((hself.2.2.2 h).1 o ho hc)
      · intro o ho hc hp
        exact (hmono o).2.1 ((hself.2.2.2 h).2.1 o ho hc hp)
      · intro o ho hc hp hn
        exact (hmono o).1 ((hself.2.2.2 h).2.2.1 o ho hc hp hn)
      · intro o ho hc hp hn
        exact (hmono o).2.2 ((hself.2.2.2 h).2.2.2.1 o ho hc hp hn)
      · intro ho
        exact (hmono "").2.2 ((hself.2.2.2 h).2.2.2.2 ho)
    · exact ih (partitionStep ids pl nl maps a) hl'

/-- C2: for every collected label without an explicit owner-kind tag, the
partition files it as an edge label when its owner id is among the edge ids
(edge wins even when the same id also names a port or node), else as a port
label when among the port ids, else as a node label when among the node ids,
else as an edge label keyed by the literal owner id (`""` when absent) — so no
label is ever dropped (last conjunct); a label with an explicit
`"node"`/`"port"`/`"edge"` tag is filed unconditionally under that kind,
keyed by its owner id or `""`. -/
theorem partitionLabels_routing (st : CollectState) (lbl : LabelRec)
    (hl : lbl ∈ st.labels) :
    (lbl.ownerKind = some "node" →
      lbl ∈ (partitionLabels st).nodeM (lbl.owner.getD "")) ∧
    (lbl.ownerKind = some "port" →
      lbl ∈ (partitionLabels st).portM (lbl.owner.getD "")) ∧
    (lbl.ownerKind = some "edge" →
      lbl ∈ (partitionLabels st).edgeM (lbl.owner.getD "")) ∧
    (lbl.ownerKind ∉ ([some "node", some "port", some "edge"] : List (Option String)) →
      (∀ o, lbl.owner = some o → (edgeOwnerIds st.edges).contains o = true →
        lbl ∈ (partitionLabels st).edgeM o) ∧
      (∀ o, lbl.owner = some o → (edgeOwnerIds st.edges).contains o = false →
        portLookupHas st.portLookup o = true →
        lbl ∈ (partitionLabels st).portM o) ∧
      (∀ o, lbl.owner = some o → (edgeOwnerIds st.edges).contains o = false →
        portLookupHas st.portLookup o = false →
        nodeLookupHas st.nodeLookup o = true →
        lbl ∈ (partitionLabels st).nodeM o) ∧
      (∀ o, lbl.owner = some o → (edgeOwnerIds st.edges).contains o = false →
        portLookupHas st.portLookup o = false →
        nodeLookupHas st.nodeLookup o = false →
        lbl ∈ (partitionLabels st).edgeM o) ∧
      (lbl.owner = none → lbl ∈ (partitionLabels st).edgeM "")) ∧
    (∃ k, lbl ∈ (partitionLabels st).nodeM k ∨ lbl ∈ (partitionLabels st).portM k ∨
      lbl ∈ (partitionLabels st).edgeM k) := by
  have hmain := partitionFold_mem (edgeOwnerIds st.edges) st.portLookup
    st.nodeLookup st.labels ⟨fun _ => [], fun _ => [], fun _ => []⟩ lbl hl
  refine ⟨hmain.1, hmain.2.1, hmain.2.2.1, hmain.2.2.2, ?_⟩
  by_cases hk : lbl.ownerKind ∈ ([some "node", some "port", some "edge"] : List (Option String))
  · simp only [List.mem_cons, List.not_mem_nil, or_false] at hk
    rcases hk with h | h | h
    · exact ⟨lbl.owner.getD "", Or.inl (hmain.1 h)⟩
    · exact ⟨lbl.owner.getD "", Or.inr (Or.inl (hmain.2.1 h))⟩
    · exact ⟨lbl.owner.getD "", Or.inr (Or.inr (hmain.2.2.1 h))⟩
  · cases ho : lbl.owner with
    | none => exact ⟨"", Or.inr (Or.inr ((hmain.2.2.2 hk).2.2.2.2 ho))⟩
    | some o =>
      cases hc : (edgeOwnerIds st.edges).contains o with
      | true => exact ⟨o, Or.inr (Or.inr ((hmain.2.2.2 hk).1 o ho hc))⟩
      | false =>
        cases hp : portLookupHas st.portLookup o with
        | true => exact ⟨o, Or.inr (Or.inl ((hmain.2.2.2 hk).2.1 o ho hc hp))⟩
        | false =>
          cases hn : nodeLookupHas st.nodeLookup o with
          | true => exact ⟨o, Or.inl ((hmain.2.2.2 hk).2.2.1 o ho hc hp hn)⟩
          | false => exact ⟨o, Or.inr (Or.inr ((hmain.2.2.2 hk).2.2.2.1 o ho hc hp hn))⟩

/-- Witness for C2: with the id `"shared"` naming an edge, a port and a node
at once, an untagged label owned by `"shared"` is filed under the edge
bucket. -/
theorem partitionLabels_routing_witness :
    exSharedLabel ∈ (partitionLabels exSharedState).edgeM "shared" :=
  ((partitionLabels_routing exSharedState exSharedLabel
      (by simp [exSharedState])).2.2.2.1 (by decide)).1 "shared" rfl (by decide)

/-! ## Claims C1 and C9: lemmas about `_collect_graph` -/

lemma collectPorts_ok_nodes {record : NodeRec} {ax ay : ℚ} {ps : List ElkPort}
    {st st' : CollectState} (h : collectPorts record ax ay ps st = .ok st') :
    st'.nodes = st.nodes ∧ st'.edges = st.edges := by
  induction ps generalizing st with
  | nil =>
    simp only [collectPorts] at h
    cases h
    exact ⟨rfl, rfl⟩
  | cons p rest ih =>
    simp only [collectPorts] at h
    cases hp : p.id with
    | none => rw [hp] at h; cases h
    | some pid =>
      rw [hp] at h
      dsimp only at h
      have hx := ih h
      exact hx

lemma collectPorts_ok_of {record : NodeRec} {ax ay : ℚ} {ps : List ElkPort}
    (h : ∀ p ∈ ps, p.id.isNone = false) (st : CollectState) :
    ∃ st', collectPorts record ax ay ps st = .ok st' := by
  induction ps generalizing st with
  | nil => exact ⟨st, rfl⟩
  | cons p rest ih =>
    cases hp : p.id with
    | none =>
      have := h p (by simp)
      rw [hp] at this
      simp at this
    | some pid =>
      obtain ⟨st', hst'⟩ := ih (fun q hq => h q (List.mem_cons_of_mem _ hq)) _
      refine ⟨st', ?_⟩
      simp only [collectPorts, hp]
      exact hst'

lemma collectPorts_err_of {record : NodeRec} {ax ay : ℚ} {ps : List ElkPort}
    {p : ElkPort} (hp : p ∈ ps) (hid : p.id.isNone = true) (st : CollectState) :
    collectPorts record ax ay ps st = .error "KeyError: 'id'" := by
  induction ps generalizing st with
  | nil => simp at hp
  | cons q rest ih =>
    rcases List.mem_cons.mp hp with rfl | hp'
    · cases hq : p.id with
      | none => simp only [collectPorts, hq]
      | some pid => rw [hq] at hid; simp at hid
    · cases hq : q.id with
      | none => simp only [collectPorts, hq]
      | some qid =>
        simp only [collectPorts, hq]
        exact ih hp' _

lemma collectOneNode_ok_nodes {n : ElkNode} {bx bY : ℚ} {st st' : CollectState}
    {nid : String} (h : collectOneNode n bx bY st = .ok st')
    (hid : elkId n = some nid) :
    st'.nodes = st.nodes ++
      [⟨nid, bx + (elkX n).getD 0, bY + (elkY n).getD 0,
        (elkWidth n).getD 0, (elkHeight n).getD 0, n⟩] ∧
    st'.edges = st.edges := by
  unfold collectOneNode at h
  rw [hid] at h
  have := collectPorts_ok_nodes h
  simpa using this

lemma collectOneNode_ok_of {n : ElkNode} {bx bY : ℚ} {nid : String}
    (hid : elkId n = some nid) (hps : ∀ p ∈ elkPorts n, p.id.isNone = false)
    (st : CollectState) :
    ∃ st', collectOneNode n bx bY st = .ok st' := by
  unfold collectOneNode
  rw [hid]
  exact collectPorts_ok_of hps _

lemma collectOneNode_err_of {n : ElkNode} {bx bY : ℚ}
    (h : (elkId n).isNone = true ∨ ∃ p ∈ elkPorts n, p.id.isNone = true)
    (st : CollectState) :
    collectOneNode n bx bY st = .error "KeyError: 'id'" := by
  rcases h with h | ⟨p, hp, hpid⟩
  · cases hid : elkId n with
    | none => simp only [collectOneNode, hid]
    | some nid => rw [hid] at h; simp at h
  · cases hid : elkId n with
    | none => simp only [collectOneNode, hid]
    | some nid =>
      simp only [collectOneNode, hid]
      exact collectPorts_err_of hp hpid _

lemma collectEdges_ok_nodes {bx bY : ℚ} {es : List ElkEdge}
    {st st' : CollectState} (h : collectEdges bx bY es st = .ok st') :
    st'.nodes = st.nodes := by
  induction es generalizing st with
  | nil =>
    simp only [collectEdges] at h
    cases h
    rfl
  | cons e rest ih =>
    simp only [collectEdges] at h
    cases hl : e.labels with
    | nil =>
      rw [hl] at h
      dsimp only at h
      have hx := ih h
      exact hx
    | cons l ls =>
      rw [hl] at h
      dsimp only at h
      cases hid : e.id with
      | none => rw [hid] at h; dsimp only at h; cases h
      | some eid =>
        rw [hid] at h
        dsimp only at h
        have hx := ih h
        exact hx

lemma collectEdges_ok_of {bx bY : ℚ} {es : List ElkEdge}
    (h : ∀ e ∈ es, (e.id.isNone && !e.labels.isEmpty) = false)
    (st : CollectState) :
    ∃ st', collectEdges bx bY es st = .ok st' := by
  induction es generalizing st with
  | nil => exact ⟨st, rfl⟩
  | cons e rest ih =>
    have he := h e (by simp)
    cases hl : e.labels with
    | nil =>
      obtain ⟨st', hst'⟩ := ih (fun q hq => h q (List.mem_cons_of_mem _ hq)) _
      refine ⟨st', ?_⟩
      simp only [collectEdges, hl]
      exact hst'
    | cons l ls =>
      cases hid : e.id with
      | none =>
        rw [hid, hl] at he
        simp at he
      | some eid =>
        obtain ⟨st', hst'⟩ := ih (fun q hq => h q (List.mem_cons_of_mem _ hq)) _
        refine ⟨st', ?_⟩
        simp only [collectEdges, hl, hid]
        exact hst'

lemma collectEdges_err_of {bx bY : ℚ} {es : List ElkEdge} {e : ElkEdge}
    (he : e ∈ es) (hbad : (e.id.isNone && !e.labels.isEmpty) = true)
    (st : CollectState) :
    collectEdges bx bY es st = .error "KeyError: 'id'" := by
  induction es generalizing st with
  | nil => simp at he
  | cons q rest ih =>
    rcases List.mem_cons.mp he with rfl | he'
    · simp only [Bool.and_eq_true, Bool.not_eq_true'] at hbad
      obtain ⟨hid, hl⟩ := hbad
      cases hll : e.labels with
      | nil => rw [hll] at hl; simp at hl
      | cons l ls =>
        cases hid2 : e.id with
        | none => simp only [collectEdges, hll, hid2]
        | some eid => rw [hid2] at hid; simp at hid
    · cases hll : q.labels with
      | nil =>
        simp only [collectEdges, hll]
        exact ih he' _
      | cons l ls =>
        cases hid2 : q.id with
        | none => simp only [collectEdges, hll, hid2]
        | some eid =>
          simp only [collectEdges, hll, hid2]
          exact ih he' _

lemma collect_nodes_mono_aux (k : Nat) :
    (∀ (g : ElkNode) (off : ℚ × ℚ) (st st' : CollectState), sizeOf g ≤ k →
      collectGraph g off st = .ok st' → ∀ r ∈ st.nodes, r ∈ st'.nodes) ∧
    (∀ (ns : List ElkNode) (bx bY : ℚ) (st st' : CollectState), sizeOf ns ≤ k →
      collectChildren ns bx bY st = .ok st' → ∀ r ∈ st.nodes, r ∈ st'.nodes) := by
  induction k using Nat.strong_induction_on with
  | _ k ih =>
    constructor
    · rintro ⟨i, x, y, w, h, t, ic, ls, ps, cs, es⟩ off st st' hsz hok r hr
      simp only [collectGraph] at hok
      cases hc : collectChildren cs (off.1 + x.getD 0) (off.2 + y.getD 0) st with
      | error e => rw [hc] at hok; cases hok
      | ok st1 =>
        rw [hc] at hok
        dsimp only at hok
        have hlt : sizeOf cs < k := by
          have : sizeOf cs < sizeOf (ElkNode.mk i x y w h t ic ls ps cs es) := by
            simp only [ElkNode.mk.sizeOf_spec]
            omega
          omega
        have hmem := (ih (sizeOf cs) hlt).2 cs _ _ st st1 le_rfl hc r hr
        rw [collectEdges_ok_nodes hok]
        exact hmem
    · intro ns bx bY st st' hsz hok r hr
      cases ns with
      | nil =>
        simp only [collectChildren] at hok
        cases hok
        exact hr
      | cons n rest =>
        simp only [collectChildren] at hok
        cases h1 : collectOneNode n bx bY st with
        | error e => rw [h1] at hok; cases hok
        | ok stA =>
          rw [h1] at hok
          dsimp only at hok
          cases h2 : collectGraph n (bx, bY) stA with
          | error e => rw [h2] at hok; cases hok
          | ok stB =>
            rw [h2] at hok
            dsimp only at hok
            have hidsome : ∃ nid, elkId n = some nid := by
              unfold collectOneNode at h1
              cases hid : elkId n with
              | none => rw [hid] at h1; cases h1
              | some nid => exact ⟨nid, rfl⟩
            obtain ⟨nid, hid⟩ := hidsome
            have hA := collectOneNode_ok_nodes h1 hid
            have hrA : r ∈ stA.nodes := by
              rw [hA.1]
              exact List.mem_append_left _ hr
            have hszn : sizeOf n < k := by
              have : sizeOf n < sizeOf (n :: rest) := by
                simp only [List.cons.sizeOf_spec]
                omega
              omega
            have hszr : sizeOf rest < k := by
              have : sizeOf rest < sizeOf (n :: rest) := by
                simp only [List.cons.sizeOf_spec]
                omega
              omega
            have hrB : r ∈ stB.nodes :=
              (ih (sizeOf n) hszn).1 n (bx, bY) stA stB le_rfl h2 r hrA
            exact (ih (sizeOf rest) hszr).2 rest bx bY stB st' le_rfl hok r hrB

lemma collectGraph_nodes_mono {g : ElkNode} {off : ℚ × ℚ} {st st' : CollectState}
    (h : collectGraph g off st = .ok st') : ∀ r ∈ st.nodes, r ∈ st'.nodes :=
  (collect_nodes_mono_aux (sizeOf g)).1 g off st st' le_rfl h

lemma collectChildren_nodes_mono {ns : List ElkNode} {bx bY : ℚ}
    {st st' : CollectState} (h : collectChildren ns bx bY st = .ok st') :
    ∀ r ∈ st.nodes, r ∈ st'.nodes :=
  (collect_nodes_mono_aux (sizeOf ns)).2 ns bx bY st st' le_rfl h

lemma collect_missing_aux (k : Nat) :
    (∀ (g : ElkNode) (off : ℚ × ℚ) (st : CollectState), sizeOf g ≤ k →
      (hasMissingId g = false → ∃ st', collectGraph g off st = .ok st') ∧
      (hasMissingId g = true →
        collectGraph g off st = .error "KeyError: 'id'")) ∧
    (∀ (ns : List ElkNode) (bx bY : ℚ) (st : CollectState), sizeOf ns ≤ k →
      (hasMissingIdIn ns = false → ∃ st', collectChildren ns bx bY st = .ok st') ∧
      (hasMissingIdIn ns = true →
        collectChildren ns bx bY st = .error "KeyError: 'id'")) := by
  induction k using Nat.strong_induction_on with
  | _ k ih =>
    constructor
    · rintro ⟨i, x, y, w, h, t, ic, ls, ps, cs, es⟩ off st hsz
      have hlt : sizeOf cs < k := by
        have : sizeOf cs < sizeOf (ElkNode.mk i x y w h t ic ls ps cs es) := by
          simp only [ElkNode.mk.sizeOf_spec]
          omega
        omega
      have ihc := (ih (sizeOf cs) hlt).2 cs (off.1 + x.getD 0) (off.2 + y.getD 0)
        st le_rfl
      constructor
      · intro hm
        simp only [hasMissingId, Bool.or_eq_false_iff] at hm
        obtain ⟨hm1, hm2⟩ := hm
        obtain ⟨st1, h1⟩ := ihc.1 hm1
        have hma : ∀ e ∈ es, (e.id.isNone && !e.labels.isEmpty) = false := by
          intro e he
          exact Bool.not_eq_true _ |>.mp (List.any_eq_false.mp hm2 e he)
        simp only [collectGraph, h1]
        exact collectEdges_ok_of hma st1
      · intro hm
        simp only [hasMissingId, Bool.or_eq_true] at hm
        cases hmc : hasMissingIdIn cs with
        | true =>
          have h1 := ihc.2 hmc
          simp only [collectGraph, h1]
        | false =>
          rcases hm with hm | hm
          · rw [hmc] at hm; cases hm
          · obtain ⟨st1, h1⟩ := ihc.1 hmc
            obtain ⟨e, he, hbad⟩ := List.any_eq_true.mp hm
            simp only [collectGraph, h1]
            exact collectEdges_err_of he hbad st1
    · intro ns bx bY st hsz
      cases ns with
      | nil =>
        exact ⟨fun _ => ⟨st, rfl⟩, fun hm => by simp [hasMissingIdIn] at hm⟩
      | cons n rest =>
        have hszn : sizeOf n < k := by
          have : sizeOf n < sizeOf (n :: rest) := by
            simp only [List.cons.sizeOf_spec]
            omega
          omega
        have hszr : sizeOf rest < k := by
          have : sizeOf rest < sizeOf (n :: rest) := by
            simp only [List.cons.sizeOf_spec]
            omega
          omega
        constructor
        · intro hm
          simp only [hasMissingIdIn, Bool.or_eq_false_iff] at hm
          obtain ⟨⟨⟨hm1, hm2⟩, hm3⟩, hm4⟩ := hm
          cases hid : elkId n with
          | none => rw [hid] at hm1; simp at hm1
          | some nid =>
            have hps : ∀ p ∈ elkPorts n, p.id.isNone = false :=
              fun p hp => Bool.not_eq_true _ |>.mp (List.any_eq_false.mp hm2 p hp)
            obtain ⟨stA, h1⟩ := @collectOneNode_ok_of n bx bY nid hid hps st
            obtain ⟨stB, h2⟩ := ((ih (sizeOf n) hszn).1 n (bx, bY) stA le_rfl).1 hm3
            obtain ⟨stC, h3⟩ := ((ih (sizeOf rest) hszr).2 rest bx bY stB le_rfl).1 hm4
            refine ⟨stC, ?_⟩
            simp only [collectChildren, h1]
            rw [h2]
            exact h3
        · intro hm
          simp only [hasMissingIdIn, Bool.or_eq_true] at hm
          cases hid : (elkId n).isNone with
          | true =>
            have h1 := @collectOneNode_err_of n bx bY (Or.inl hid) st
            simp only [collectChildren, h1]
          | false =>
            cases hport : (elkPorts n).any (fun p => p.id.isNone) with
            | true =>
              obtain ⟨p, hp, hpid⟩ := List.any_eq_true.mp hport
              have h1 := @collectOneNode_err_of n bx bY (Or.inr ⟨p, hp, hpid⟩) st
              simp only [collectChildren, h1]
            | false =>
              obtain ⟨nid, hid'⟩ : ∃ nid, elkId n = some nid := by
                cases hi : elkId n with
                | none => rw [hi] at hid; simp at hid
                | some nid => exact ⟨nid, rfl⟩
              have hps : ∀ p ∈ elkPorts n, p.id.isNone = false :=
                fun p hp => Bool.not_eq_true _ |>.mp (List.any_eq_false.mp hport p hp)
              obtain ⟨stA, h1⟩ := @collectOneNode_ok_of n bx bY nid hid' hps st
              cases hmn : hasMissingId n with
              | true =>
                have h2 := ((ih (sizeOf n) hszn).1 n (bx, bY) stA le_rfl).2 hmn
                simp only [collectChildren, h1]
                rw [h2]
              | false =>
                obtain ⟨stB, h2⟩ := ((ih (sizeOf n) hszn).1 n (bx, bY) stA le_rfl).1 hmn
                have hmr : hasMissingIdIn rest = true := by
                  rcases hm with ((hm | hm) | hm) | hm
                  · rw [hid] at hm; cases hm
                  · rw [hport] at hm; cases hm
                  · rw [hmn] at hm; cases hm
                  · exact hm
                have h3 := ((ih (sizeOf rest) hszr).2 rest bx bY stB le_rfl).2 hmr
                simp only [collectChildren, h1]
                rw [h2]
                exact h3

/-- C9 (counterexample): the claim says a missing identifier on a node,
port *or edge* aborts the transform.  A document whose only edge has no
`"id"` (and no labels) collects successfully: `edge["id"]` is only read
inside the edge-label loop. -/
theorem missingEdgeId_not_fatal :
    (elkEdges exEdgeNoIdDoc).any (fun e => e.id.isNone) = true ∧
    isOkE (collectGraph exEdgeNoIdDoc (0, 0) emptyState) = true :=
  ⟨rfl, rfl⟩

/-- C9 (amended): the transform aborts — with the `KeyError: 'id'`
missing-identifier error, the only error it can raise — exactly when, at some
nesting depth, a node lacks its id, a port lacks its id, or an edge that
carries labels lacks its id; an edge without labels may omit its identifier
and collection proceeds (all other anomalies degrade gracefully by
construction: every other lookup in the embedding is total). -/
theorem collect_fatal_iff_missing_id (g : ElkNode) (off : ℚ × ℚ)
    (st : CollectState) :
    (collectGraph g off st = .error "KeyError: 'id'" ↔ hasMissingId g = true) ∧
    (∀ e, collectGraph g off st = .error e → e = "KeyError: 'id'") := by
  have haux := (collect_missing_aux (sizeOf g)).1 g off st le_rfl
  refine ⟨⟨?_, haux.2⟩, ?_⟩
  · intro herr
    cases hm : hasMissingId g with
    | true => rfl
    | false =>
      obtain ⟨st', hok⟩ := haux.1 hm
      rw [hok] at herr
      cases herr
  · intro e herr
    cases hm : hasMissingId g with
    | false =>
      obtain ⟨st', hok⟩ := haux.1 hm
      rw [hok] at herr
      cases herr
    | true =>
      have h := haux.2 hm
      rw [h] at herr
      cases herr
      rfl

lemma collectChildren_decompose {ns : List ElkNode} {bx bY : ℚ}
    {st st' : CollectState} {i : Nat} {c : ElkNode}
    (hok : collectChildren ns bx bY st = .ok st') (hget : ns.get? i = some c) :
    ∃ stA s1 s2, collectOneNode c bx bY stA = .ok s1 ∧
      collectGraph c (bx, bY) s1 = .ok s2 ∧
      (∀ r ∈ s1.nodes, r ∈ st'.nodes) ∧
      (∀ r ∈ s2.nodes, r ∈ st'.nodes) := by
  induction ns generalizing i st with
  | nil => simp at hget
  | cons n rest ih =>
    simp only [collectChildren] at hok
    cases h1 : collectOneNode n bx bY st with
    | error e => rw [h1] at hok; cases hok
    | ok s1 =>
      rw [h1] at hok
      dsimp only at hok
      cases h2 : collectGraph n (bx, bY) s1 with
      | error e => rw [h2] at hok; cases hok
      | ok s2 =>
        rw [h2] at hok
        dsimp only at hok
        cases i with
        | zero =>
          rw [List.get?_cons_zero] at hget
          cases hget
          exact ⟨st, s1, s2, h1, h2,
            fun r hr => collectChildren_nodes_mono hok r
              (collectGraph_nodes_mono h2 r hr),
            fun r hr => collectChildren_nodes_mono hok r hr⟩
        | succ j =>
          rw [List.get?_cons_succ] at hget
          exact ih hok hget

lemma collectChildren_path {p : List Nat} :
    ∀ {i : Nat} {ns : List ElkNode} {bx bY : ℚ} {st st' : CollectState}
      {c n : ElkNode} {nid : String},
    collectChildren ns bx bY st = .ok st' → ns.get? i = some c →
    nodeAt p c = some n → elkId n = some nid →
    (⟨nid, bx + pathAbsX p c, bY + pathAbsY p c,
      (elkWidth n).getD 0, (elkHeight n).getD 0, n⟩ : NodeRec) ∈ st'.nodes := by
  induction p with
  | nil =>
    intro i ns bx bY st st' c n nid hok hget hat hid
    simp only [nodeAt] at hat
    cases hat
    obtain ⟨stA, s1, s2, h1, h2, hm1, hm2⟩ := collectChildren_decompose hok hget
    have hrec := collectOneNode_ok_nodes h1 hid
    have hin : (⟨nid, bx + (elkX c).getD 0, bY + (elkY c).getD 0,
        (elkWidth c).getD 0, (elkHeight c).getD 0, c⟩ : NodeRec) ∈ s1.nodes := by
      rw [hrec.1]
      exact List.mem_append_right _ (by simp)
    simp only [pathAbsX, pathAbsY]
    exact hm1 _ hin
  | cons j p' ih =>
    intro i ns bx bY st st' c n nid hok hget hat hid
    obtain ⟨ci, cx, cy, cw, ch, ct, cic, cls, cps, ccs, ces⟩ := c
    simp only [nodeAt, elkChildren] at hat
    cases hc' : ccs.get? j with
    | none =>
      rw [hc'] at hat
      simp at hat
    | some c' =>
      rw [hc'] at hat
      dsimp only at hat
      obtain ⟨stA, s1, s2, h1, h2, hm1, hm2⟩ := collectChildren_decompose hok hget
      simp only [collectGraph] at h2
      cases hD : collectChildren ccs (bx + cx.getD 0) (bY + cy.getD 0) s1 with
      | error e => rw [hD] at h2; cases h2
      | ok sD =>
        rw [hD] at h2
        dsimp only at h2
        have ihres := ih hD hc' hat hid
        have h3 : sD.nodes = s2.nodes := (collectEdges_ok_nodes h2).symm
        have hin : (⟨nid, bx + cx.getD 0 + pathAbsX p' c',
            bY + cy.getD 0 + pathAbsY p' c',
            (elkWidth n).getD 0, (elkHeight n).getD 0, n⟩ : NodeRec) ∈ st'.nodes :=
          hm2 _ (h3 ▸ ihres)
        simp only [pathAbsX, pathAbsY, elkX, elkY, elkChildren]
        rw [hc']
        convert hin using 2 <;> ring

/-- C1: for every node at any nesting depth of the input document (every
nonempty child path `i :: p`), geometry resolution records it with absolute
position equal to the sum of every ancestor subgraph's declared `(x, y)`
(root offset `(0, 0)`, missing coordinates defaulting to `0`) plus the node's
own declared `(x, y)` — i.e. `pathAbsX`/`pathAbsY` along the path — together
with its declared size and raw node. -/
theorem collect_abs_positions (g : ElkNode) (st₀ st : CollectState)
    (hok : collectGraph g (0, 0) st₀ = .ok st)
    (i : Nat) (p : List Nat) (n : ElkNode) (nid : String)
    (hpath : nodeAt (i :: p) g = some n)
    (hid : elkId n = some nid) :
    (⟨nid, pathAbsX (i :: p) g, pathAbsY (i :: p) g,
      (elkWidth n).getD 0, (elkHeight n).getD 0, n⟩ : NodeRec) ∈ st.nodes := by
  obtain ⟨gi, gx, gy, gw, gh, gt, gic, gls, gps, gcs, ges⟩ := g
  simp only [nodeAt, elkChildren] at hpath
  cases hg : gcs.get? i with
  | none =>
    rw [hg] at hpath
    simp at hpath
  | some c =>
    rw [hg] at hpath
    dsimp only at hpath
    simp only [collectGraph] at hok
    cases hc : collectChildren gcs ((0 : ℚ) + gx.getD 0) ((0 : ℚ) + gy.getD 0) st₀ with
    | error e => rw [hc] at hok; cases hok
    | ok st1 =>
      rw [hc] at hok
      dsimp only at hok
      have hmem := collectChildren_path hc hg hpath hid
      have h3 : st1.nodes = st.nodes := (collectEdges_ok_nodes hok).symm
      have hin := h3 ▸ hmem
      simp only [pathAbsX, pathAbsY, elkX, elkY, elkChildren]
      rw [hg]
      convert hin using 2 <;> ring

/-- Witness for C1: in a document whose subgraph sits at `(20, 20)` and whose
inner child sits at local `(15, 10)`, the inner node is recorded at absolute
`(35, 30)`. -/
theorem collect_abs_positions_witness :
    (⟨"inner", 35, 30, 40, 25, exInnerNode⟩ : NodeRec)
      ∈ nodesOf (collectGraph exNestedDoc (0, 0) emptyState) ∧
    pathAbsX [0, 0] exNestedDoc = 35 ∧ pathAbsY [0, 0] exNestedDoc = 30 := by
  have hx : pathAbsX [0, 0] exNestedDoc = 35 := by
    rw [show pathAbsX [0, 0] exNestedDoc = 0 + (20 + 15) from rfl]
    norm_num
  have hy : pathAbsY [0, 0] exNestedDoc = 30 := by
    rw [show pathAbsY [0, 0] exNestedDoc = 0 + (20 + 10) from rfl]
    norm_num
  refine ⟨?_, hx, hy⟩
  have h := collect_abs_positions exNestedDoc emptyState _ rfl 0 [0] exInnerNode
    "inner" rfl rfl
  rw [hx, hy] at h
  exact h

/-- Witness for C9 (amended): a document whose only child node lacks its id
aborts with the missing-identifier error, and the edge-without-labels document
of the counterexample has no missing required id. -/
theorem collect_fatal_iff_missing_id_witness :
    collectGraph exNodeNoIdDoc (0, 0) emptyState = .error "KeyError: 'id'" ∧
    hasMissingId exEdgeNoIdDoc = false :=
  ⟨(collect_fatal_iff_missing_id exNodeNoIdDoc (0, 0) emptyState).1.mpr rfl, rfl⟩
